import Mathlib

/-!
Verification of the metahire resume-processing service.

This file gives a shallow embedding, in Lean, of the pure computational core
of the repository:

* `experience_calculator.py` : `calculate_experience`, which parses
  employment date ranges of the form `"<Month> <Year> - <Month> <Year>"`
  (or `"... - Present"`), computes per-job durations in fractional years
  at month granularity, and aggregates a rounded total;
* `match.py` : the scoring loop of the `/match/` endpoint, which walks a
  category -> subcategory -> items tree, calls an external matcher per item,
  and aggregates item, category and overall scores;
* the JSON coercion steps of `resume_parser.py` (`generate_gpt_insights`)
  and `app.py` (`parse_natural_query`).

Modelling conventions:

* Python floats are embedded as exact rationals.  All duration values
  produced by the date code are integer multiples of `1/12`; for such values
  the float computations of the source (sums of a handful of terms, and
  `round(x, 1)`) agree with exact rational arithmetic: the only inputs of
  `round` that fall exactly on a rounding boundary are multiples of `1/4`,
  which are exactly representable in binary, and all other reachable inputs
  are at distance at least `1/60` from a boundary, far beyond the float
  error of the few additions involved.  `round(x, 1)` itself is
  round-half-to-even on `10 * x`, as in Python.
* Python strings are embedded as `String` / `List Char`; the char-level
  functions below mirror `str.split(" - ")` and
  `datetime.strptime(s, "%B %Y")` (full month name, case-insensitive,
  then one or more whitespace characters, then exactly four digits making
  a year of at least 1, with nothing left over).
* `datetime.now()` is a parameter of the aggregation function (`Now`),
  recording the current year and month and whether the instant lies
  strictly after the midnight opening its month.  The source feeds the two
  dates into `relativedelta` and keeps only `years + months / 12`; for two
  month-starts this is exactly the signed month difference divided by 12,
  and for an ongoing range ending at `now` the month difference is
  corrected by one when the range starts in the future and `now` is past
  the start of its month, exactly as the `relativedelta` normalisation
  loop does.
* Fallible steps return `Option` / `Except`; the `ValueError` branches of
  the source correspond to `none`.
-/

namespace MetaHire

/-! ## Rounding: Python `round(x, 1)` on exact rationals -/

/-- Round a rational to the nearest integer, halves to the even neighbour,
as Python `round` does. -/
def roundHalfEven (q : ℚ) : ℤ :=
  let n : ℤ := Int.floor q
  let frac : ℚ := q - (n : ℚ)
  if frac < 1/2 then n
  else if 1/2 < frac then n + 1
  else if Even n then n else n + 1

/-- Python `round(q, 1)`. -/
def round1 (q : ℚ) : ℚ :=
  (roundHalfEven (q * 10) : ℚ) / 10

/-! ## Date-range parsing (`experience_calculator.py`, lines 17-19)

`employment_dates.split(" - ")` must yield exactly two parts; each side is
parsed with `datetime.strptime(side, "%B %Y")`, except that an end side
whose lower-casing is `"present"` or `"current"` resolves to
`datetime.now()`. -/

/-- Python `s.split(" - ")`: split on each non-overlapping occurrence of
the three-character separator, left to right. -/
def splitDash : List Char → List (List Char)
  | [] => [[]]
  | ' ' :: '-' :: ' ' :: rest => [] :: splitDash rest
  | c :: rest =>
    match splitDash rest with
    | [] => [[c]]
    | p :: ps => (c :: p) :: ps

/-- The full English month names, lower-cased, with their month numbers:
the `%B` table of `strptime` in the C locale. -/
def monthTable : List (List Char × ℕ) :=
  [("january".toList, 1), ("february".toList, 2), ("march".toList, 3),
   ("april".toList, 4), ("may".toList, 5), ("june".toList, 6),
   ("july".toList, 7), ("august".toList, 8), ("september".toList, 9),
   ("october".toList, 10), ("november".toList, 11), ("december".toList, 12)]

/-- Decimal value of a list of digit characters. -/
def charsToNat (l : List Char) : ℕ :=
  l.foldl (fun a c => 10 * a + (c.toNat - 48)) 0

/-- After the month name, `strptime` format `"%B %Y"` demands one or more
whitespace characters, then exactly four digits (the `%Y` pattern of
`_strptime` is `\d\d\d\d`), then the end of the string
(`unconverted data remains` otherwise); a parsed year of 0 is rejected by
`datetime` (`MINYEAR` is 1). -/
def yearTail (rest : List Char) : Option ℕ :=
  let ws := rest.takeWhile Char.isWhitespace
  let ds := rest.dropWhile Char.isWhitespace
  if ws = [] then none
  else if ds ≠ [] ∧ ds.length = 4 ∧ ds.all Char.isDigit ∧ 1 ≤ charsToNat ds then
    some (charsToNat ds)
  else none

/-- `datetime.strptime(side, "%B %Y")`, reduced to the (month, year) pair.
Month matching is case-insensitive; at most one table entry can be a prefix
of the input since no month name is a prefix of another. -/
def parseMonthYear (l : List Char) : Option (ℕ × ℕ) :=
  let ll := l.map Char.toLower
  monthTable.findSome? fun e =>
    if e.1.isPrefixOf ll then
      match yearTail (ll.drop e.1.length) with
      | some y => some (e.2, y)
      | none => none
    else none

/-- A month of a year as an absolute month count (the source compares
`datetime` values only through `relativedelta` year/month fields, so a
month-start instant is fully described by this count). -/
def absMonths (month year : ℕ) : ℤ :=
  12 * (year : ℤ) + ((month : ℤ) - 1)

/-- End of a range: a fixed month-start, or ongoing (`"present"`/
`"current"`, resolved at aggregation time). -/
inductive EndSpec : Type
  | fixed (months : ℤ)
  | ongoing
deriving DecidableEq

/-- The lower-cased end markers accepted by the source:
`end_date_str.lower() in ["present", "current"]`. -/
def presentMarkers : List (List Char) :=
  ["present".toList, "current".toList]

/-- Parse one `employment_dates` string into the start month count and the
end specification; `none` is the `ValueError` branch of the source. -/
def parseRange (s : String) : Option (ℤ × EndSpec) :=
  match splitDash s.toList with
  | [a, b] =>
    match parseMonthYear a with
    | none => none
    | some (ms, ys) =>
      if (b.map Char.toLower) ∈ presentMarkers then
        some (absMonths ms ys, EndSpec.ongoing)
      else
        match parseMonthYear b with
        | none => none
        | some (me, ye) => some (absMonths ms ys, EndSpec.fixed (absMonths me ye))
  | _ => none

/-- The processing instant `datetime.now()`: its absolute month count, and
whether it lies strictly after the first midnight of its month. -/
structure Now : Type where
  months : ℤ
  pastMonthStart : Bool
deriving DecidableEq

/-- Signed month difference `relativedelta(end, start)` reduced to
`years * 12 + months`.  For an ongoing range the normalisation loop of
`relativedelta` adds one month when the start lies in a strictly later
month than `now` and `now` is past the first midnight of its own month. -/
def deltaMonths (now : Now) (start : ℤ) : EndSpec → ℤ
  | EndSpec.fixed e => e - start
  | EndSpec.ongoing =>
    let d := now.months - start
    if d < 0 ∧ now.pastMonthStart then d + 1 else d

/-- Per-job duration in fractional years:
`job_experience.years + job_experience.months / 12`, which for the
month-granular dates of this code equals the signed month difference over
12. -/
def jobDuration (now : Now) (s : String) : Option ℚ :=
  match parseRange s with
  | none => none
  | some (start, e) => some ((deltaMonths now start e : ℚ) / 12)

/-! ## The aggregator (`experience_calculator.calculate_experience`) -/

/-- One job record: the raw `employment_dates` text, the
`experience_years` slot (absent until aggregation fills it), and the
remaining resume fields, which the aggregator never touches. -/
structure Job : Type where
  employment_dates : String
  experience_years : Option ℚ := none
  others : List (String × String) := []
deriving DecidableEq

/-- `job["experience_years"] = round(experience_years, 1)`. -/
def setYears (now : Now) (j : Job) : Job :=
  { j with experience_years := some (round1 ((jobDuration now j.employment_dates).getD 0)) }

/-- The loop of `calculate_experience`: unrounded durations accumulate into
the running total, records that fail to parse are skipped
(`except ValueError: continue`), parsed records get their rounded
`experience_years` and are appended in order. -/
def calcGo (now : Now) : List Job → ℚ × List Job
  | [] => (0, [])
  | j :: rest =>
    match jobDuration now j.employment_dates with
    | none => calcGo now rest
    | some d =>
      let r := calcGo now rest
      (d + r.1, setYears now j :: r.2)

/-- `calculate_experience(work_experience)`: the final total is rounded to
one decimal place. -/
def calculate_experience (now : Now) (jobs : List Job) : ℚ × List Job :=
  let r := calcGo now jobs
  (round1 r.1, r.2)

end MetaHire

namespace MetaHire

/-! ## Basic facts about the aggregator -/

/-- The aggregation loop, summarised: the total accumulates exactly the
unrounded durations of the records that parse, and the output list is the
input list filtered to the parsing records, each updated with its rounded
duration, in input order. -/
lemma calcGo_eq (now : Now) (jobs : List Job) :
    calcGo now jobs =
      ((jobs.filterMap fun j => jobDuration now j.employment_dates).sum,
       (jobs.filter fun j => (jobDuration now j.employment_dates).isSome).map (setYears now)) := by
  induction jobs with
  | nil => simp [calcGo]
  | cons j rest ih =>
    cases h : jobDuration now j.employment_dates with
    | none => simp [calcGo, h, ih]
    | some d => simp [calcGo, h, ih]

/-- Rounding half to even never moves a nonnegative value below zero. -/
lemma roundHalfEven_nonneg {q : ℚ} (h : 0 ≤ q) : 0 ≤ roundHalfEven q := by
  unfold roundHalfEven
  have hf : (0 : ℤ) ≤ Int.floor q := Int.floor_nonneg.mpr h
  dsimp only
  split
  · exact hf
  · split
    · omega
    · split
      · exact hf
      · omega

/-- Python `round(q, 1)` of a nonnegative rational is nonnegative. -/
lemma round1_nonneg {q : ℚ} (h : 0 ≤ q) : 0 ≤ round1 q := by
  unfold round1
  have h10 : (0 : ℚ) ≤ q * 10 := by positivity
  have := roundHalfEven_nonneg h10
  positivity

end MetaHire

namespace MetaHire

/-! ## Concrete fixtures used by counterexamples and witnesses -/

/-- A fixed processing instant (month count 24300 is December 2025). -/
def now0 : Now := ⟨24300, false⟩

/-- A four-month job: January 2020 to May 2020, duration 4/12 = 1/3. -/
def jobFourMonths : Job := ⟨"January 2020 - May 2020", none, []⟩

/-- A record whose `employment_dates` text parses in no way. -/
def jobGarbage : Job := ⟨"garbage", none, []⟩

/-- A syntactically well-formed range whose end precedes its start. -/
def jobReversed : Job := ⟨"January 2017 - January 2015", none, []⟩

lemma parse_fourMonths : parseRange "January 2020 - May 2020" = some (24240, EndSpec.fixed 24244) := by
  decide

lemma parse_garbage : parseRange "garbage" = none := by
  decide

lemma parse_reversed : parseRange "January 2017 - January 2015" = some (24204, EndSpec.fixed 24180) := by
  decide

lemma duration_fourMonths : jobDuration now0 "January 2020 - May 2020" = some (1/3) := by
  rw [jobDuration, parse_fourMonths]
  norm_num [deltaMonths]

/-- C1: on any input sequence mixing malformed and well-formed
`employment_dates` entries, `calculate_experience` returns exactly the
successfully parsed records — each malformed record is excluded from the
output entirely — in input order, and the total is computed from the valid
durations alone; no malformed record aborts the processing of the rest
(the function is total and the records after a malformed one survive in
the filtered output). -/
theorem C1_malformed_records_dropped (now : Now) (jobs : List Job) :
    (calculate_experience now jobs).2 =
      (jobs.filter fun j => (jobDuration now j.employment_dates).isSome).map (setYears now)
    ∧ (calculate_experience now jobs).1 =
      round1 ((jobs.filterMap fun j => jobDuration now j.employment_dates).sum) := by
  unfold calculate_experience
  rw [calcGo_eq]
  exact ⟨rfl, rfl⟩

/-- C2: the claim that `total_years` sums the already-rounded one-decimal
per-job values is false on the code.  Two jobs of four months each have
duration 1/3 ≈ 0.333; the code returns `round(1/3 + 1/3, 1) = 0.7`, while
the claimed `round(round(1/3, 1) + round(1/3, 1), 1)` is `0.6`. -/
theorem C2_counterexample_rounding_order :
    jobDuration now0 "January 2020 - May 2020" = some (1/3)
    ∧ (calculate_experience now0 [jobFourMonths, jobFourMonths]).1 = 7/10
    ∧ round1 (round1 (1/3) + round1 (1/3)) = 3/5
    ∧ (7 : ℚ)/10 ≠ 3/5 := by
  refine ⟨duration_fourMonths, ?_, ?_, by norm_num⟩
  · simp [calculate_experience, calcGo, jobFourMonths, jobDuration, parse_fourMonths,
      deltaMonths, round1, roundHalfEven, now0]
    norm_num [Int.fract]
  · simp [round1, roundHalfEven]
    norm_num [Int.fract]

/-- C2 (amended): `total_years` is the single rounding, to one decimal, of
the sum of the unrounded per-job durations; the code does not sum the
rounded per-job values. -/
theorem C2_amended_total_rounds_unrounded_sum (now : Now) (jobs : List Job) :
    (calculate_experience now jobs).1 =
      round1 ((jobs.filterMap fun j => jobDuration now j.employment_dates).sum) := by
  unfold calculate_experience
  rw [calcGo_eq]

/-- C3: the nonnegativity claim fails on the code: a syntactically valid
range whose end precedes its start parses successfully and produces a
negative duration, so both the stored `experience_years` and `total_years`
go negative. -/
theorem C3_counterexample_negative_duration :
    (calculate_experience now0 [jobReversed]).1 = -2
    ∧ ((-2 : ℚ) < 0)
    ∧ (calculate_experience now0 [jobReversed]).2 =
        [{ employment_dates := "January 2017 - January 2015",
           experience_years := some (-2), others := [] }] := by
  refine ⟨?_, by norm_num, ?_⟩
  · simp [calculate_experience, calcGo, jobReversed, jobDuration, parse_reversed,
      deltaMonths, round1, roundHalfEven, now0]
    norm_num [Int.fract]
  · simp [calculate_experience, calcGo, jobReversed, jobDuration, parse_reversed,
      deltaMonths, setYears, round1, roundHalfEven, now0]
    norm_num [Int.fract]

/-- C3 (amended): provided every record that parses has a nonnegative
duration (end not before start, and for ongoing ranges a start not in the
future), the returned `total_years` is nonnegative and every stored
`experience_years` is nonnegative. -/
theorem C3_amended_nonneg_under_ordered_ranges (now : Now) (jobs : List Job)
    (h : ∀ j ∈ jobs, ∀ d : ℚ, jobDuration now j.employment_dates = some d → 0 ≤ d) :
    0 ≤ (calculate_experience now jobs).1
    ∧ ∀ j2 ∈ (calculate_experience now jobs).2, ∀ q : ℚ,
        j2.experience_years = some q → 0 ≤ q := by
  unfold calculate_experience
  rw [calcGo_eq]
  constructor
  · apply round1_nonneg
    apply List.sum_nonneg
    intro q hq
    rw [List.mem_filterMap] at hq
    obtain ⟨j, hj, hjd⟩ := hq
    exact h j hj q hjd
  · intro j2 hj2 q hq
    simp only [List.mem_map, List.mem_filter] at hj2
    obtain ⟨j, ⟨hj, hsome⟩, rfl⟩ := hj2
    simp only [setYears, Option.some.injEq] at hq
    subst hq
    apply round1_nonneg
    cases hd : jobDuration now j.employment_dates with
    | none => rw [hd] at hsome; simp at hsome
    | some d => simpa using h j hj d hd

end MetaHire

namespace MetaHire

/-- C3 witness: the amended nonnegativity statement instantiated at a
concrete single-job input whose range is chronological. -/
theorem C3_witness_concrete_nonneg :
    0 ≤ (calculate_experience now0 [jobFourMonths]).1
    ∧ ∀ j2 ∈ (calculate_experience now0 [jobFourMonths]).2, ∀ q : ℚ,
        j2.experience_years = some q → 0 ≤ q :=
  C3_amended_nonneg_under_ordered_ranges now0 [jobFourMonths] (by
    intro j hj d hd
    simp only [List.mem_singleton] at hj
    subst hj
    simp only [jobFourMonths] at hd
    rw [duration_fourMonths] at hd
    obtain rfl := Option.some.inj hd.symm
    norm_num)

end MetaHire

namespace MetaHire

/-! ## Decimal rendering of years, used to quantify over well-formed inputs -/

/-- Decimal digits of a natural number, most significant first; the first
argument is recursion fuel (any fuel at least `n` gives the digits of
`n`). -/
def natDigitsAux : ℕ → ℕ → List ℕ
  | 0, n => [n]
  | fuel+1, n => if n < 10 then [n] else natDigitsAux fuel (n / 10) ++ [n % 10]

/-- Decimal digits of a natural number, most significant first. -/
def natDigits (n : ℕ) : List ℕ :=
  natDigitsAux n n

/-- The character of a decimal digit. -/
def digitChar (d : ℕ) : Char :=
  Char.ofNat (48 + d)

/-- The standard decimal rendering of a natural number, as characters. -/
def renderNat (n : ℕ) : List Char :=
  (natDigits n).map digitChar

lemma digitChar_toNat : ∀ d < 10, (digitChar d).toNat = 48 + d := by decide

lemma digitChar_isDigit : ∀ d < 10, (digitChar d).isDigit = true := by decide

lemma digitChar_not_ws : ∀ d < 10, (digitChar d).isWhitespace = false := by decide

lemma digitChar_ne_dash : ∀ d < 10, digitChar d ≠ '-' := by decide

lemma digitChar_toLower : ∀ d < 10, Char.toLower (digitChar d) = digitChar d := by decide

lemma natDigitsAux_lt_ten (fuel : ℕ) : ∀ n ≤ fuel, ∀ d ∈ natDigitsAux fuel n, d < 10 := by
  induction fuel with
  | zero =>
    intro n hn d hd
    interval_cases n
    simp [natDigitsAux] at hd
    omega
  | succ fuel ih =>
    intro n hn d hd
    by_cases h10 : n < 10
    · simp [natDigitsAux, h10] at hd
      omega
    · simp [natDigitsAux, h10] at hd
      rcases hd with hd | hd
      · have hlt : n / 10 < n := Nat.div_lt_self (by omega) (by omega)
        exact ih (n / 10) (by omega) d hd
      · have := Nat.mod_lt n (show 0 < 10 by omega)
        omega

lemma natDigits_lt_ten (n : ℕ) : ∀ d ∈ natDigits n, d < 10 :=
  natDigitsAux_lt_ten n n le_rfl

lemma natDigitsAux_ne_nil (fuel n : ℕ) : natDigitsAux fuel n ≠ [] := by
  cases fuel with
  | zero => simp [natDigitsAux]
  | succ fuel =>
    by_cases h10 : n < 10 <;> simp [natDigitsAux, h10]

lemma natDigits_ne_nil (n : ℕ) : natDigits n ≠ [] :=
  natDigitsAux_ne_nil n n

lemma charsToNat_append (l : List Char) (c : Char) :
    charsToNat (l ++ [c]) = 10 * charsToNat l + (c.toNat - 48) := by
  unfold charsToNat
  rw [List.foldl_append]
  rfl

lemma charsToNat_natDigitsAux (fuel : ℕ) : ∀ n ≤ fuel,
    charsToNat ((natDigitsAux fuel n).map digitChar) = n := by
  induction fuel with
  | zero =>
    intro n hn
    interval_cases n
    decide
  | succ fuel ih =>
    intro n hn
    by_cases h10 : n < 10
    · simp only [natDigitsAux, h10, if_true, List.map_cons, List.map_nil]
      unfold charsToNat
      simp [digitChar_toNat n h10]
    · simp only [natDigitsAux, h10, if_false, List.map_append, List.map_cons, List.map_nil]
      rw [charsToNat_append]
      have hlt : n / 10 < n := Nat.div_lt_self (by omega) (by omega)
      rw [ih (n / 10) (by omega)]
      have hm : n % 10 < 10 := Nat.mod_lt n (by omega)
      rw [digitChar_toNat (n % 10) hm]
      omega

lemma charsToNat_renderNat (n : ℕ) : charsToNat (renderNat n) = n :=
  charsToNat_natDigitsAux n n le_rfl

lemma natDigitsAux_length (fuel : ℕ) : ∀ n k, n ≤ fuel → 1 ≤ k → n < 10 ^ k →
    (natDigitsAux fuel n).length ≤ k := by
  induction fuel with
  | zero =>
    intro n k hn hk _
    interval_cases n
    simpa [natDigitsAux] using hk
  | succ fuel ih =>
    intro n k hn hk hpow
    by_cases h10 : n < 10
    · simpa [natDigitsAux, h10] using hk
    · simp only [natDigitsAux, h10, if_false, List.length_append, List.length_cons,
        List.length_nil]
      have hk2 : 2 ≤ k := by
        by_contra hkk
        have hk1 : k = 1 := by omega
        subst hk1
        simp at hpow
        omega
      have hlt : n / 10 < n := Nat.div_lt_self (by omega) (by omega)
      have hdiv : n / 10 < 10 ^ (k - 1) := by
        rw [Nat.div_lt_iff_lt_mul (by omega : 0 < 10)]
        calc n < 10 ^ k := hpow
        _ = 10 ^ (k - 1) * 10 := by
          rw [← Nat.pow_succ]
          congr 1
          omega
      have := ih (n / 10) (k - 1) (by omega) (by omega) hdiv
      omega

lemma natDigits_length_le_four (n : ℕ) (h : n ≤ 9999) : (natDigits n).length ≤ 4 :=
  natDigitsAux_length n n 4 le_rfl (by omega) (by omega)

lemma natDigitsAux_lt_pow (fuel : ℕ) : ∀ n ≤ fuel, n < 10 ^ (natDigitsAux fuel n).length := by
  induction fuel with
  | zero =>
    intro n hn
    interval_cases n
    simp [natDigitsAux]
  | succ fuel ih =>
    intro n hn
    by_cases h10 : n < 10
    · simpa [natDigitsAux, h10] using h10
    · simp only [natDigitsAux, h10, if_false, List.length_append, List.length_cons,
        List.length_nil]
      have hlt : n / 10 < n := Nat.div_lt_self (by omega) (by omega)
      have hdiv := ih (n / 10) (by omega)
      have hmod : n % 10 < 10 := Nat.mod_lt n (by omega)
      have hdm : 10 * (n / 10) + n % 10 = n := Nat.div_add_mod n 10
      have hgoal : n < 10 * 10 ^ (natDigitsAux fuel (n / 10)).length := by omega
      calc n < 10 * 10 ^ (natDigitsAux fuel (n / 10)).length := hgoal
      _ = 10 ^ ((natDigitsAux fuel (n / 10)).length + (0 + 1)) := by
        rw [pow_succ]
        ring

/-- A year between 1000 and 9999 renders with exactly four digits, as the
`%Y` pattern demands. -/
lemma natDigits_length_eq_four (n : ℕ) (h1 : 1000 ≤ n) (h2 : n ≤ 9999) :
    (natDigits n).length = 4 := by
  have hle : (natDigits n).length ≤ 4 := natDigits_length_le_four n h2
  have hlt : n < 10 ^ (natDigits n).length := natDigitsAux_lt_pow n n le_rfl
  by_contra hne
  have h3 : (natDigits n).length ≤ 3 := by omega
  have hpw : (10 : ℕ) ^ (natDigits n).length ≤ 10 ^ 3 :=
    Nat.pow_le_pow_right (by omega) h3
  have h1000 : (10 : ℕ) ^ 3 = 1000 := by norm_num
  omega

lemma renderNat_all_digit (n : ℕ) : ∀ c ∈ renderNat n, c.isDigit = true := by
  intro c hc
  rw [renderNat, List.mem_map] at hc
  obtain ⟨d, hd, rfl⟩ := hc
  exact digitChar_isDigit d (natDigits_lt_ten n d hd)

lemma renderNat_no_dash (n : ℕ) : ('-' : Char) ∉ renderNat n := by
  intro hc
  rw [renderNat, List.mem_map] at hc
  obtain ⟨d, hd, hdc⟩ := hc
  exact digitChar_ne_dash d (natDigits_lt_ten n d hd) hdc

lemma renderNat_not_ws (n : ℕ) : ∀ c ∈ renderNat n, c.isWhitespace = false := by
  intro c hc
  rw [renderNat, List.mem_map] at hc
  obtain ⟨d, hd, rfl⟩ := hc
  exact digitChar_not_ws d (natDigits_lt_ten n d hd)

lemma renderNat_toLower (n : ℕ) : (renderNat n).map Char.toLower = renderNat n := by
  rw [renderNat, List.map_map]
  apply List.map_congr_left
  intro d hd
  exact digitChar_toLower d (natDigits_lt_ten n d hd)

end MetaHire

namespace MetaHire

/-! ## Month-name matching lemmas -/

/-- No month name is a prefix of another (so at most one table entry can
match a given input). -/
lemma monthTable_incomparable :
    monthTable.Pairwise
      (fun a b => a.1.isPrefixOf b.1 = false ∧ b.1.isPrefixOf a.1 = false) := by
  decide

/-- Month names contain neither a dash nor a space. -/
lemma monthTable_chars : ∀ e ∈ monthTable, ('-' : Char) ∉ e.1 ∧ (' ' : Char) ∉ e.1 := by
  decide

/-- Two incomparable lists stay incomparable after extending the second. -/
lemma isPrefixOf_append_false {x y : List Char} (r : List Char)
    (h1 : x.isPrefixOf y = false) (h2 : y.isPrefixOf x = false) :
    x.isPrefixOf (y ++ r) = false := by
  by_contra h
  have hx : x <+: y ++ r := List.isPrefixOf_iff_prefix.mp (by simpa using h)
  have hy : y <+: y ++ r := List.prefix_append y r
  rcases le_or_lt x.length y.length with hle | hlt
  · have := List.isPrefixOf_iff_prefix.mpr (List.prefix_of_prefix_length_le hx hy hle)
    rw [h1] at this
    exact Bool.false_ne_true this
  · have := List.isPrefixOf_iff_prefix.mpr
      (List.prefix_of_prefix_length_le hy hx (by omega))
    rw [h2] at this
    exact Bool.false_ne_true this

/-- `findSome?` yields the value of the first succeeding entry when all
earlier entries fail. -/
lemma findSome?_middle {α β : Type} (l1 l2 : List α) (x : α) (f : α → Option β) (b : β)
    (h1 : ∀ a ∈ l1, f a = none) (hx : f x = some b) :
    (l1 ++ x :: l2).findSome? f = some b := by
  induction l1 with
  | nil => simp [List.findSome?_cons, hx]
  | cons a l ih =>
    rw [List.cons_append, List.findSome?_cons, h1 a (List.mem_cons_self a _)]
    exact ih fun a2 ha2 => h1 a2 (List.mem_cons_of_mem a ha2)

/-- `yearTail` accepts a single space followed by the four-digit decimal
rendering of a year between 1000 and 9999. -/
lemma yearTail_render (y : ℕ) (hy1 : 1000 ≤ y) (hy2 : y ≤ 9999) :
    yearTail (' ' :: renderNat y) = some y := by
  have hne : renderNat y ≠ [] := by
    rw [renderNat]
    simpa using natDigits_ne_nil y
  have htw0 : (renderNat y).takeWhile Char.isWhitespace = [] := by
    cases hrn : renderNat y with
    | nil => rfl
    | cons c cs =>
      have hc : c.isWhitespace = false := by
        apply renderNat_not_ws y
        rw [hrn]
        exact List.mem_cons_self c cs
      simp [List.takeWhile_cons, hc]
  have hdw0 : (renderNat y).dropWhile Char.isWhitespace = renderNat y := by
    cases hrn : renderNat y with
    | nil => rfl
    | cons c cs =>
      have hc : c.isWhitespace = false := by
        apply renderNat_not_ws y
        rw [hrn]
        exact List.mem_cons_self c cs
      simp [List.dropWhile_cons, hc]
  have hlen : (renderNat y).length = 4 := by
    rw [renderNat, List.length_map]
    exact natDigits_length_eq_four y hy1 hy2
  have hall : (renderNat y).all Char.isDigit = true := by
    rw [List.all_eq_true]
    exact renderNat_all_digit y
  simp only [yearTail, List.takeWhile_cons, List.dropWhile_cons,
    show (' ' : Char).isWhitespace = true from rfl, if_true, htw0, hdw0]
  rw [if_neg (by simp)]
  rw [if_pos ⟨hne, hlen, hall, by rw [charsToNat_renderNat]; omega⟩]
  rw [charsToNat_renderNat]

/-- `parseMonthYear` succeeds on any letter-case variant of a full month
name followed by a space and a four-digit year between 1000 and 9999. -/
lemma parseMonthYear_render (nm : List Char) (m : ℕ) (hmem : (nm, m) ∈ monthTable)
    (a : List Char) (y : ℕ)
    (ha : a.map Char.toLower = nm ++ ' ' :: renderNat y)
    (hy1 : 1000 ≤ y) (hy2 : y ≤ 9999) :
    parseMonthYear a = some (m, y) := by
  obtain ⟨l1, l2, htab⟩ := List.append_of_mem hmem
  have hpw := monthTable_incomparable
  rw [htab] at hpw
  rw [List.pairwise_append] at hpw
  simp only [parseMonthYear, ha, htab]
  apply findSome?_middle
  · intro e he
    have hrel := hpw.2.2 e he (nm, m) (List.mem_cons_self _ _)
    rw [if_neg]
    simp only [isPrefixOf_append_false (' ' :: renderNat y) hrel.1 hrel.2]
    simp
  · rw [if_pos]
    · rw [List.drop_left, yearTail_render y hy1 hy2]
    · exact List.isPrefixOf_iff_prefix.mpr (List.prefix_append nm _)

end MetaHire

namespace MetaHire

/-! ## Split lemmas -/

/-- A list without a dash is never split. -/
lemma splitDash_no_dash (b : List Char) (hb : ('-' : Char) ∉ b) : splitDash b = [b] := by
  induction b with
  | nil => rfl
  | cons c cs ih =>
    have hc : c ≠ '-' := fun h => hb (h ▸ List.mem_cons_self c cs)
    have hcs : ('-' : Char) ∉ cs := fun h => hb (List.mem_cons_of_mem c h)
    rw [splitDash.eq_def]
    split
    next heq => exact absurd heq (by simp)
    next rest heq =>
      exfalso
      have hdm : ('-' : Char) ∈ c :: cs := by
        rw [heq]
        simp
      rcases List.mem_cons.mp hdm with h | h
      · exact hc h.symm
      · exact hcs h
    next c2 rest hcond heq =>
      obtain ⟨rfl, rfl⟩ : c2 = c ∧ rest = cs := by
        injection heq with h1 h2
        exact ⟨h1.symm, h2.symm⟩
      rw [ih hcs]

/-- Splitting `a ++ " - " ++ b` when neither side contains a dash. -/
lemma splitDash_render (a b : List Char) (ha : ('-' : Char) ∉ a) (hb : ('-' : Char) ∉ b) :
    splitDash (a ++ ' ' :: '-' :: ' ' :: b) = [a, b] := by
  induction a with
  | nil =>
    rw [List.nil_append, splitDash.eq_def]
    split
    next x heq => exact absurd heq (by simp)
    next x rest heq =>
      have hr : rest = b := by
        injection heq with h1 h2
        injection h2 with h3 h4
        injection h4 with h5 h6
        exact h6.symm
      rw [hr, splitDash_no_dash b hb]
    next x c2 rest hcond heq =>
      exfalso
      injection heq with h1 h2
      exact hcond b h1.symm h2.symm
  | cons c cs ih =>
    have hc : c ≠ '-' := fun h => ha (h ▸ List.mem_cons_self c cs)
    have hcs : ('-' : Char) ∉ cs := fun h => ha (List.mem_cons_of_mem c h)
    rw [List.cons_append, splitDash.eq_def]
    split
    next heq => exact absurd heq (by simp)
    next rest heq =>
      exfalso
      injection heq with h1 h2
      subst h1
      cases cs with
      | nil =>
        injection h2 with h3 h4
        exact hc h3
      | cons c2 cs2 =>
        injection h2 with h3 h4
        apply hcs
        rw [← h3]
        exact List.mem_cons_self _ _
    next c2 rest hcond heq =>
      obtain ⟨rfl, rfl⟩ : c2 = c ∧ rest = cs ++ ' ' :: '-' :: ' ' :: b := by
        injection heq with h1 h2
        exact ⟨h1.symm, h2.symm⟩
      rw [ih hcs]

end MetaHire

namespace MetaHire

/-! ## Well-formed range rendering -/

/-- A month-name-plus-year side contains no dash. -/
lemma side_no_dash (nm : List Char) (m : ℕ) (hmem : (nm, m) ∈ monthTable)
    (a : List Char) (y : ℕ)
    (ha : a.map Char.toLower = nm ++ ' ' :: renderNat y) :
    ('-' : Char) ∉ a := by
  intro hd
  have hm : Char.toLower '-' ∈ a.map Char.toLower := List.mem_map_of_mem _ hd
  rw [ha, show Char.toLower '-' = '-' from rfl] at hm
  rcases List.mem_append.mp hm with h | h
  · exact (monthTable_chars _ hmem).1 h
  · rcases List.mem_cons.mp h with h | h
    · exact absurd h (by decide)
    · exact renderNat_no_dash y h

/-- A side whose lower-casing is a present/current marker contains no
dash. -/
lemma marker_no_dash (b : List Char) (hb : b.map Char.toLower ∈ presentMarkers) :
    ('-' : Char) ∉ b := by
  intro hd
  have hm : Char.toLower '-' ∈ b.map Char.toLower := List.mem_map_of_mem _ hd
  rw [show Char.toLower '-' = '-' from rfl] at hm
  simp only [presentMarkers, List.mem_cons, List.mem_singleton, List.not_mem_nil,
    or_false] at hb
  rcases hb with h | h <;> rw [h] at hm <;> exact absurd hm (by decide)

/-- A month-name-plus-year side is not a present/current marker (it
contains a space). -/
lemma side_not_marker (nm : List Char)
    (b : List Char) (y : ℕ)
    (hb : b.map Char.toLower = nm ++ ' ' :: renderNat y) :
    b.map Char.toLower ∉ presentMarkers := by
  intro hmk
  have hsp : (' ' : Char) ∈ b.map Char.toLower := by
    rw [hb]
    simp
  simp only [presentMarkers, List.mem_cons, List.mem_singleton, List.not_mem_nil,
    or_false] at hmk
  rcases hmk with h | h <;> rw [h] at hsp <;> exact absurd hsp (by decide)

/-- `parseRange` accepts `"<Month> <Year> - <Month> <Year>"` for any full
English month names in any letter case and four-digit years between 1000
and 9999. -/
lemma parseRange_render_fixed (s : String)
    (nm1 nm2 : List Char) (m1 m2 : ℕ)
    (h1 : (nm1, m1) ∈ monthTable) (h2 : (nm2, m2) ∈ monthTable)
    (a b : List Char) (y1 y2 : ℕ)
    (hs : s.toList = a ++ ' ' :: '-' :: ' ' :: b)
    (ha : a.map Char.toLower = nm1 ++ ' ' :: renderNat y1)
    (hb : b.map Char.toLower = nm2 ++ ' ' :: renderNat y2)
    (hy11 : 1000 ≤ y1) (hy12 : y1 ≤ 9999) (hy21 : 1000 ≤ y2) (hy22 : y2 ≤ 9999) :
    parseRange s = some (absMonths m1 y1, EndSpec.fixed (absMonths m2 y2)) := by
  have hda := side_no_dash nm1 m1 h1 a y1 ha
  have hdb := side_no_dash nm2 m2 h2 b y2 hb
  simp only [parseRange, hs, splitDash_render a b hda hdb]
  rw [parseMonthYear_render nm1 m1 h1 a y1 ha hy11 hy12,
    parseMonthYear_render nm2 m2 h2 b y2 hb hy21 hy22]
  simp only [if_neg (side_not_marker nm2 b y2 hb)]

/-- `parseRange` accepts `"<Month> <Year> - Present"` (or `Current`), the
marker in any letter case, and records an ongoing end. -/
lemma parseRange_render_ongoing (s : String)
    (nm : List Char) (m : ℕ) (hmem : (nm, m) ∈ monthTable)
    (a b : List Char) (y : ℕ)
    (hs : s.toList = a ++ ' ' :: '-' :: ' ' :: b)
    (ha : a.map Char.toLower = nm ++ ' ' :: renderNat y)
    (hb : b.map Char.toLower ∈ presentMarkers)
    (hy1 : 1000 ≤ y) (hy2 : y ≤ 9999) :
    parseRange s = some (absMonths m y, EndSpec.ongoing) := by
  have hda := side_no_dash nm m hmem a y ha
  have hdb := marker_no_dash b hb
  simp only [parseRange, hs, splitDash_render a b hda hdb]
  rw [parseMonthYear_render nm m hmem a y ha hy1 hy2]
  simp only [if_pos hb]

end MetaHire

namespace MetaHire

/-- C4: the unconditional nonnegativity part of the claim fails: the
syntactically well-formed range "January 2017 - January 2015" parses
successfully and its computed duration is -2 years. -/
theorem C4_counterexample_reversed_range :
    parseRange "January 2017 - January 2015" = some (24204, EndSpec.fixed 24180)
    ∧ jobDuration now0 "January 2017 - January 2015" = some (-2)
    ∧ ¬ (0 : ℚ) ≤ -2 := by
  refine ⟨parse_reversed, ?_, by norm_num⟩
  simp only [jobDuration, parse_reversed, deltaMonths]
  norm_num

/-- C4 (amended): every well-formed input
`"<Month> <Year> - <Month> <Year>"` (full English month names in any
letter case, four-digit years 1000 to 9999 as the `%Y` pattern demands)
parses successfully, and its duration is the
whole-year-plus-remainder-months-over-12 value, i.e. the signed calendar
month difference divided by 12 — month granularity, not day-accurate; the
duration is nonnegative whenever the end month is not before the start
month, and "January 2015 - January 2017" yields exactly 2 years. -/
theorem C4_amended_wellformed_duration (s : String)
    (nm1 nm2 : List Char) (m1 m2 : ℕ)
    (h1 : (nm1, m1) ∈ monthTable) (h2 : (nm2, m2) ∈ monthTable)
    (a b : List Char) (y1 y2 : ℕ)
    (hs : s.toList = a ++ ' ' :: '-' :: ' ' :: b)
    (ha : a.map Char.toLower = nm1 ++ ' ' :: renderNat y1)
    (hb : b.map Char.toLower = nm2 ++ ' ' :: renderNat y2)
    (hy11 : 1000 ≤ y1) (hy12 : y1 ≤ 9999) (hy21 : 1000 ≤ y2) (hy22 : y2 ≤ 9999) :
    parseRange s = some (absMonths m1 y1, EndSpec.fixed (absMonths m2 y2))
    ∧ (∀ now : Now, jobDuration now s =
        some (((absMonths m2 y2 - absMonths m1 y1 : ℤ) : ℚ) / 12))
    ∧ (absMonths m1 y1 ≤ absMonths m2 y2 →
        0 ≤ ((absMonths m2 y2 - absMonths m1 y1 : ℤ) : ℚ) / 12)
    ∧ (∀ now : Now, jobDuration now "January 2015 - January 2017" = some 2) := by
  have hp := parseRange_render_fixed s nm1 nm2 m1 m2 h1 h2 a b y1 y2 hs ha hb
    hy11 hy12 hy21 hy22
  refine ⟨hp, ?_, ?_, ?_⟩
  · intro now
    simp only [jobDuration, hp, deltaMonths]
  · intro hle
    apply div_nonneg _ (by norm_num)
    exact_mod_cast sub_nonneg.mpr hle
  · intro now
    have hpc : parseRange "January 2015 - January 2017" = some (24180, EndSpec.fixed 24204) := by
      decide
    simp only [jobDuration, hpc, deltaMonths]
    norm_num

/-- C4 witness: the amended statement at the concrete well-formed input
"March 2019 - May 2021". -/
theorem C4_witness_concrete_wellformed :
    parseRange "March 2019 - May 2021" = some (absMonths 3 2019, EndSpec.fixed (absMonths 5 2021))
    ∧ (∀ now : Now, jobDuration now "March 2019 - May 2021" =
        some (((absMonths 5 2021 - absMonths 3 2019 : ℤ) : ℚ) / 12))
    ∧ (absMonths 3 2019 ≤ absMonths 5 2021 →
        0 ≤ ((absMonths 5 2021 - absMonths 3 2019 : ℤ) : ℚ) / 12)
    ∧ (∀ now : Now, jobDuration now "January 2015 - January 2017" = some 2) :=
  C4_amended_wellformed_duration "March 2019 - May 2021"
    "march".toList "may".toList 3 5 (by decide) (by decide)
    "March 2019".toList "May 2021".toList 2019 2021
    (by decide) (by decide) (by decide)
    (by decide) (by decide) (by decide) (by decide)

end MetaHire

namespace MetaHire

/-! ## Inversion: what the parser can accept -/

/-- Inversion of `yearTail`: success forces a nonempty whitespace run
followed by exactly four digits valued at least 1. -/
lemma yearTail_shape (rest : List Char) (y : ℕ) (h : yearTail rest = some y) :
    ∃ ws ds : List Char, rest = ws ++ ds
      ∧ ws ≠ [] ∧ (∀ c ∈ ws, c.isWhitespace = true)
      ∧ ds ≠ [] ∧ ds.length = 4 ∧ (∀ c ∈ ds, c.isDigit = true)
      ∧ charsToNat ds = y ∧ 1 ≤ y := by
  simp only [yearTail] at h
  by_cases h1 : rest.takeWhile Char.isWhitespace = []
  · rw [if_pos h1] at h
    cases h
  · rw [if_neg h1] at h
    by_cases h2 : rest.dropWhile Char.isWhitespace ≠ []
      ∧ (rest.dropWhile Char.isWhitespace).length = 4
      ∧ (rest.dropWhile Char.isWhitespace).all Char.isDigit = true
      ∧ 1 ≤ charsToNat (rest.dropWhile Char.isWhitespace)
    · rw [if_pos h2] at h
      obtain rfl := (Option.some.inj h).symm
      refine ⟨rest.takeWhile Char.isWhitespace, rest.dropWhile Char.isWhitespace,
        (List.takeWhile_append_dropWhile Char.isWhitespace rest).symm, h1, ?_,
        h2.1, h2.2.1, ?_, rfl, h2.2.2.2⟩
      · intro c hc
        exact List.mem_takeWhile_imp hc
      · intro c hc
        exact List.all_eq_true.mp h2.2.2.1 c hc
    · rw [if_neg h2] at h
      cases h

/-- Inversion of `parseMonthYear`: success forces a (case-insensitive)
full month name, a whitespace run, and exactly four digits. -/
lemma parseMonthYear_shape (a : List Char) (m y : ℕ)
    (h : parseMonthYear a = some (m, y)) :
    ∃ nm ws ds : List Char,
      (nm, m) ∈ monthTable
      ∧ a.map Char.toLower = nm ++ ws ++ ds
      ∧ ws ≠ [] ∧ (∀ c ∈ ws, c.isWhitespace = true)
      ∧ ds ≠ [] ∧ ds.length = 4 ∧ (∀ c ∈ ds, c.isDigit = true)
      ∧ charsToNat ds = y ∧ 1 ≤ y := by
  simp only [parseMonthYear] at h
  obtain ⟨e, hmem, hf⟩ := List.exists_of_findSome?_eq_some h
  by_cases hpre : e.1.isPrefixOf (a.map Char.toLower) = true
  · rw [if_pos hpre] at hf
    cases hyt : yearTail ((a.map Char.toLower).drop e.1.length) with
    | none =>
      rw [hyt] at hf
      cases hf
    | some y2 =>
      rw [hyt] at hf
      have hey : e.2 = m ∧ y2 = y :=
        ⟨congrArg Prod.fst (Option.some.inj hf), congrArg Prod.snd (Option.some.inj hf)⟩
      obtain ⟨rest, hrest⟩ := List.isPrefixOf_iff_prefix.mp hpre
      have hdrop : (a.map Char.toLower).drop e.1.length = rest := by
        rw [← hrest, List.drop_left]
      rw [hdrop] at hyt
      obtain ⟨ws, ds, hsplit, hws, hwsall, hds, hdslen, hdsall, hval, hy1⟩ :=
        yearTail_shape rest y2 hyt
      refine ⟨e.1, ws, ds, ?_, ?_, hws, hwsall, hds, hdslen, hdsall, ?_, ?_⟩
      · rw [← hey.1]
        exact hmem
      · rw [← hrest, hsplit, List.append_assoc]
      · rw [hval, hey.2]
      · rw [← hey.2]
        exact hy1
  · rw [if_neg hpre] at hf
    cases hf

/-- Inversion of `parseRange`: any accepted string splits on `" - "` into
exactly two sides, the first a month-year, the second either a
present/current marker (ongoing) or a month-year (fixed end). -/
lemma parseRange_shape (s : String) (st : ℤ) (e : EndSpec)
    (h : parseRange s = some (st, e)) :
    ∃ a b : List Char, splitDash s.toList = [a, b]
      ∧ (∃ m y, parseMonthYear a = some (m, y) ∧ st = absMonths m y)
      ∧ ((b.map Char.toLower ∈ presentMarkers ∧ e = EndSpec.ongoing)
        ∨ (b.map Char.toLower ∉ presentMarkers
            ∧ ∃ m2 y2, parseMonthYear b = some (m2, y2)
            ∧ e = EndSpec.fixed (absMonths m2 y2))) := by
  simp only [parseRange] at h
  rcases hsp : splitDash s.toList with _ | ⟨a, _ | ⟨b, _ | ⟨c, rest⟩⟩⟩ <;> rw [hsp] at h
  · cases h
  · cases h
  · cases hpa : parseMonthYear a with
    | none =>
      simp [hpa] at h
    | some p =>
      obtain ⟨pm, py⟩ := p
      simp only [hpa] at h
      by_cases hmk : b.map Char.toLower ∈ presentMarkers
      · rw [if_pos hmk] at h
        have hinj := Option.some.inj h
        refine ⟨a, b, rfl, ⟨pm, py, hpa, (congrArg Prod.fst hinj).symm⟩,
          Or.inl ⟨hmk, (congrArg Prod.snd hinj).symm⟩⟩
      · rw [if_neg hmk] at h
        cases hpb : parseMonthYear b with
        | none =>
          simp [hpb] at h
        | some p2 =>
          obtain ⟨qm, qy⟩ := p2
          simp only [hpb] at h
          have hinj := Option.some.inj h
          exact ⟨a, b, rfl, ⟨pm, py, hpa, (congrArg Prod.fst hinj).symm⟩,
            Or.inr ⟨hmk, qm, qy, hpb, (congrArg Prod.snd hinj).symm⟩⟩
  · cases h

end MetaHire

namespace MetaHire

/-- C5: the parser accepts exactly the two forms
`"<MonthName> <Year> - <MonthName> <Year>"` and
`"<MonthName> <Year> - Present"`: (i) an end side whose lower-casing is
`present` or `current` is accepted as ongoing; (ii) an ongoing end is
resolved against the clock passed at aggregation time, so the stored years
and the total depend on that instant; (iii) concretely, the same record
aggregated in January 2022 and in January 2023 yields 2 and 3 years;
(iv) abbreviated months, a separator without spaces, numeric dates,
non-English month names and years of fewer than four digits are all
rejected; (v) any accepted input splits on `" - "` into exactly two sides,
the first a month-year and the second a marker or a month-year; (vi) an
accepted month-year side is exactly a full English month name
(case-insensitively), whitespace, and a four-digit year. -/
theorem C5_parser_accepts_only_two_forms :
    (∀ (s : String) (nm : List Char) (m : ℕ) (a b : List Char) (y : ℕ),
      (nm, m) ∈ monthTable →
      s.toList = a ++ ' ' :: '-' :: ' ' :: b →
      a.map Char.toLower = nm ++ ' ' :: renderNat y →
      b.map Char.toLower ∈ presentMarkers →
      1000 ≤ y → y ≤ 9999 →
      parseRange s = some (absMonths m y, EndSpec.ongoing))
    ∧ (∀ (s : String) (start : ℤ) (now : Now),
        parseRange s = some (start, EndSpec.ongoing) →
        jobDuration now s = some ((deltaMonths now start EndSpec.ongoing : ℚ) / 12)
        ∧ (calculate_experience now [⟨s, none, []⟩]).1 =
            round1 ((deltaMonths now start EndSpec.ongoing : ℚ) / 12))
    ∧ jobDuration ⟨absMonths 1 2022, false⟩ "January 2020 - Present" = some 2
    ∧ jobDuration ⟨absMonths 1 2023, false⟩ "January 2020 - Present" = some 3
    ∧ parseRange "Jan 2015 - December 2020" = none
    ∧ parseRange "January 2015-January 2017" = none
    ∧ parseRange "01/2015 - 12/2017" = none
    ∧ parseRange "janvier 2015 - mars 2017" = none
    ∧ parseRange "January 15 - January 17" = none
    ∧ parseRange "June 5 - Present" = none
    ∧ (∀ (s : String) (st : ℤ) (e : EndSpec), parseRange s = some (st, e) →
        ∃ a b : List Char, splitDash s.toList = [a, b]
          ∧ (∃ m y, parseMonthYear a = some (m, y) ∧ st = absMonths m y)
          ∧ ((b.map Char.toLower ∈ presentMarkers ∧ e = EndSpec.ongoing)
            ∨ (b.map Char.toLower ∉ presentMarkers
                ∧ ∃ m2 y2, parseMonthYear b = some (m2, y2)
                ∧ e = EndSpec.fixed (absMonths m2 y2))))
    ∧ (∀ (a : List Char) (m y : ℕ), parseMonthYear a = some (m, y) →
        ∃ nm ws ds : List Char,
          (nm, m) ∈ monthTable
          ∧ a.map Char.toLower = nm ++ ws ++ ds
          ∧ ws ≠ [] ∧ (∀ c ∈ ws, c.isWhitespace = true)
          ∧ ds ≠ [] ∧ ds.length = 4 ∧ (∀ c ∈ ds, c.isDigit = true)
          ∧ charsToNat ds = y ∧ 1 ≤ y) := by
  have hpresent : parseRange "January 2020 - Present" = some (24240, EndSpec.ongoing) := by
    decide
  refine ⟨?_, ?_, ?_, ?_, by decide, by decide, by decide, by decide, by decide,
    by decide, parseRange_shape, parseMonthYear_shape⟩
  · intro s nm m a b y hmem hs ha hb hy1 hy2
    exact parseRange_render_ongoing s nm m hmem a b y hs ha hb hy1 hy2
  · intro s start now hp
    constructor
    · simp only [jobDuration, hp]
    · simp [calculate_experience, calcGo, jobDuration, hp]
  · simp only [jobDuration, hpresent, deltaMonths]
    norm_num [absMonths]
  · simp only [jobDuration, hpresent, deltaMonths]
    norm_num [absMonths]

/-- C5 witness: the acceptance statement applied at the concrete input
"June 2021 - PRESENT" (a letter-case variant of the ongoing marker). -/
theorem C5_witness_concrete_ongoing :
    parseRange "June 2021 - PRESENT" = some (absMonths 6 2021, EndSpec.ongoing) :=
  C5_parser_accepts_only_two_forms.1 "June 2021 - PRESENT" "june".toList 6
    "June 2021".toList "PRESENT".toList 2021
    (by decide) (by decide) (by decide) (by decide) (by decide) (by decide)

end MetaHire

namespace MetaHire

/-! ## JSON values (`match.py` and the coercers operate on parsed JSON) -/

/-- A parsed JSON value.  JSON object keys are strings; note that Python
key equality `1 == True` across types is not modelled (no claim mixes
numeric and boolean keys). -/
inductive JVal : Type
  | jstr (s : String)
  | jnum (q : ℚ)
  | jbool (b : Bool)
  | jnull
  | jarr (xs : List JVal)
  | jobj (kvs : List (String × JVal))

/-- Python truthiness of a JSON value (`not x` checks). -/
def JVal.truthy : JVal → Bool
  | JVal.jstr s => !(s == "")
  | JVal.jnum q => !(q == 0)
  | JVal.jbool b => b
  | JVal.jnull => false
  | JVal.jarr xs => !xs.isEmpty
  | JVal.jobj kvs => !kvs.isEmpty

/-- Python `d.get(key)` on a JSON object (keys are unique in objects
produced by `json.loads`). -/
def jget : List (String × JVal) → String → Option JVal
  | [], _ => none
  | (k, v) :: rest, key => if k = key then some v else jget rest key

mutual

/-- Structural equality of JSON values, mirroring Python `==` on parsed
JSON (used for dict-key comparison in the results tree). -/
def JVal.beq : JVal → JVal → Bool
  | JVal.jstr a, JVal.jstr b => a == b
  | JVal.jnum a, JVal.jnum b => a == b
  | JVal.jbool a, JVal.jbool b => a == b
  | JVal.jnull, JVal.jnull => true
  | JVal.jarr xs, JVal.jarr ys => JVal.beqList xs ys
  | JVal.jobj xs, JVal.jobj ys => JVal.beqObj xs ys
  | _, _ => false

def JVal.beqList : List JVal → List JVal → Bool
  | [], [] => true
  | x :: xs, y :: ys => JVal.beq x y && JVal.beqList xs ys
  | _, _ => false

def JVal.beqObj : List (String × JVal) → List (String × JVal) → Bool
  | [], [] => true
  | (k1, v1) :: xs, (k2, v2) :: ys => k1 == k2 && JVal.beq v1 v2 && JVal.beqObj xs ys
  | _, _ => false

end

/-- Python dict assignment `d[k] = v` for string keys: overwrite in place
(keeping the original key and position), else append. -/
def dictInsert {β : Type} : List (String × β) → String → β → List (String × β)
  | [], k, v => [(k, v)]
  | (k2, v2) :: rest, k, v =>
    if k2 = k then (k2, v) :: rest else (k2, v2) :: dictInsert rest k v

/-- Python dict assignment `d[k] = v` for JSON-value keys (the per-item
results tree is keyed by requirement-item values). -/
def itemInsert {β : Type} : List (JVal × β) → JVal → β → List (JVal × β)
  | [], k, v => [(k, v)]
  | (k2, v2) :: rest, k, v =>
    if JVal.beq k2 k then (k2, v) :: rest else (k2, v2) :: itemInsert rest k v

/-- Whether a JSON value is hashable in Python (lists and dicts are not;
using one as a dict key or looking it up in `MATCH_SCORES` raises
`TypeError`). -/
def JVal.hashable : JVal → Bool
  | JVal.jarr _ => false
  | JVal.jobj _ => false
  | _ => true

/-! ## The `/match/` scoring loop (`match.py`, `unified_match_endpoint`) -/

/-- `MATCH_SCORES.get(match_level, 0)` for a hashable level value. -/
def levelScore : JVal → ℚ
  | JVal.jstr s =>
    if s = "Full match" then 1
    else if s = "Partial match" then 1/2
    else 0
  | _ => 0

/-- The outcome synthesized when `match_item` fails with an HTTP error:
`{"match_level": "Error", "reason": "Error during matching: <detail>",
"evidence": ""}`. -/
def errOutcome (detail : String) : JVal :=
  JVal.jobj [("match_level", JVal.jstr "Error"),
    ("reason", JVal.jstr ("Error during matching: " ++ detail)),
    ("evidence", JVal.jstr "")]

/-- Request-level failures of the endpoint. -/
inductive MatchError : Type
  | missingData
  | jdNotDict
  | invalidItems (subcategory : String)
  | typeError
deriving DecidableEq

/-- HTTP status of each failure (400 for missing input, 500 otherwise). -/
def MatchError.status : MatchError → ℕ
  | MatchError.missingData => 400
  | _ => 500

/-- The endpoint result: the results tree, per-category scores and overall
score, or an error envelope. -/
inductive MatchResponse : Type
  | success (results : List (String × List (String × List (JVal × JVal))))
      (categoryScores : List (String × ℚ)) (overall : ℚ)
  | httpError (e : MatchError)

/-- The external matcher (`match_item`): called once per leaf item, in
order; the call index lets a model oracle answer differently on repeated
items.  An `error` is an `HTTPException` raised by `match_item`; an `ok`
carries the JSON value parsed from the model output. -/
def Matcher : Type := ℕ → JVal → Except String JVal

/-- The inner loop over the items of one subcategory.  Per item: call the
matcher; on success store the outcome verbatim and score
`match_data.get("match_level", "No match")` through `MATCH_SCORES`; on a
reported failure store the synthesized Error outcome and leave all four
counters untouched.  A non-dict outcome (`.get` raises `AttributeError`)
or an unhashable item or level (`TypeError`) escapes the per-item handler
and aborts the request. -/
def processItems (matcher : Matcher) :
    List JVal → ℕ → List (JVal × JVal) → ℚ → ℕ → ℚ → ℕ →
    Except MatchError (ℕ × List (JVal × JVal) × ℚ × ℕ × ℚ × ℕ)
  | [], calls, tree, catScore, catItems, totalScore, totalItems =>
    Except.ok (calls, tree, catScore, catItems, totalScore, totalItems)
  | item :: rest, calls, tree, catScore, catItems, totalScore, totalItems =>
    match matcher calls item with
    | Except.ok md =>
      if item.hashable then
        match md with
        | JVal.jobj kvs =>
          match (jget kvs "match_level").getD (JVal.jstr "No match") with
          | JVal.jarr _ => Except.error MatchError.typeError
          | JVal.jobj _ => Except.error MatchError.typeError
          | level =>
            processItems matcher rest (calls + 1) (itemInsert tree item md)
              (catScore + levelScore level) (catItems + 1)
              (totalScore + levelScore level) (totalItems + 1)
        | _ => Except.error MatchError.typeError
      else Except.error MatchError.typeError
    | Except.error detail =>
      if item.hashable then
        processItems matcher rest (calls + 1) (itemInsert tree item (errOutcome detail))
          catScore catItems totalScore totalItems
      else Except.error MatchError.typeError

/-- The loop over the subcategories of one category: a subcategory whose
items value is not a list raises an `HTTPException` that aborts the whole
request. -/
def processSubcats (matcher : Matcher) :
    List (String × JVal) → ℕ → List (String × List (JVal × JVal)) → ℚ → ℕ → ℚ → ℕ →
    Except MatchError (ℕ × List (String × List (JVal × JVal)) × ℚ × ℕ × ℚ × ℕ)
  | [], calls, catTree, catScore, catItems, totalScore, totalItems =>
    Except.ok (calls, catTree, catScore, catItems, totalScore, totalItems)
  | (sub, v) :: rest, calls, catTree, catScore, catItems, totalScore, totalItems =>
    match v with
    | JVal.jarr items =>
      match processItems matcher items calls [] catScore catItems totalScore totalItems with
      | Except.error e => Except.error e
      | Except.ok (calls2, tree, catScore2, catItems2, totalScore2, totalItems2) =>
        processSubcats matcher rest calls2 (dictInsert catTree sub tree)
          catScore2 catItems2 totalScore2 totalItems2
    | _ => Except.error (MatchError.invalidItems sub)

/-- The loop over categories: a category whose subcategories value is not
a dict is skipped (logged warning, no entry in the results tree); at the
end of a category its mean is recorded only when it counted at least one
item. -/
def processCats (matcher : Matcher) :
    List (String × JVal) → ℕ → List (String × List (String × List (JVal × JVal))) →
    List (String × ℚ) → ℚ → ℕ →
    Except MatchError
      (List (String × List (String × List (JVal × JVal))) × List (String × ℚ) × ℚ × ℕ)
  | [], _, results, catScores, totalScore, totalItems =>
    Except.ok (results, catScores, totalScore, totalItems)
  | (cat, v) :: rest, calls, results, catScores, totalScore, totalItems =>
    match v with
    | JVal.jobj subcats =>
      match processSubcats matcher subcats calls [] 0 0 totalScore totalItems with
      | Except.error e => Except.error e
      | Except.ok (calls2, catTree, catScore, catItems, totalScore2, totalItems2) =>
        processCats matcher rest calls2 (dictInsert results cat catTree)
          (if 0 < catItems then dictInsert catScores cat (catScore / (catItems : ℚ))
            else catScores)
          totalScore2 totalItems2
    | _ => processCats matcher rest calls results catScores totalScore totalItems

/-- The `/match/` endpoint on already-extracted `job_description.parsed_data`
and `resume.response` values: 400 when either is falsy, 500 when the job
description is not a dict, else run the scoring loops; the overall score
divides by the counted items, or is 0 when none were counted. -/
def unified_match (matcher : Matcher) (jd : JVal) (resume : JVal) : MatchResponse :=
  if ¬ jd.truthy ∨ ¬ resume.truthy then MatchResponse.httpError MatchError.missingData
  else
    match jd with
    | JVal.jobj cats =>
      match processCats matcher cats 0 [] [] 0 0 with
      | Except.error e => MatchResponse.httpError e
      | Except.ok (results, catScores, totalScore, totalItems) =>
        MatchResponse.success results catScores
          (if 0 < totalItems then totalScore / (totalItems : ℚ) else 0)
    | _ => MatchResponse.httpError MatchError.jdNotDict

end MetaHire

namespace MetaHire

/-! ## Reference scoring, following the specification text -/

/-- The level string carried by a matcher outcome: its `match_level`
field, defaulting to `"No match"` when absent. -/
def levelOfMd : JVal → String
  | JVal.jobj kvs =>
    match (jget kvs "match_level").getD (JVal.jstr "No match") with
    | JVal.jstr s => s
    | _ => ""
  | _ => ""

/-- The level strings of the successful matcher calls over a list of
items; the call index advances on every item, failed calls contribute no
level. -/
def okLevels (matcher : Matcher) : ℕ → List JVal → List String
  | _, [] => []
  | idx, it :: rest =>
    match matcher idx it with
    | Except.ok md => levelOfMd md :: okLevels matcher (idx + 1) rest
    | Except.error _ => okLevels matcher (idx + 1) rest

/-- The items of a category, in processing order (non-list subcategory
values contribute nothing; under the shape hypotheses they do not
occur). -/
def itemsOfSubs : List (String × JVal) → List JVal
  | [] => []
  | (_, JVal.jarr xs) :: rest => xs ++ itemsOfSubs rest
  | _ :: rest => itemsOfSubs rest

/-- The category names (for dict-shaped categories, in order) with the
levels of their counted items. -/
def refWalk (matcher : Matcher) : ℕ → List (String × JVal) → List (String × List String)
  | _, [] => []
  | idx, (c, JVal.jobj subs) :: rest =>
    (c, okLevels matcher idx (itemsOfSubs subs)) ::
      refWalk matcher (idx + (itemsOfSubs subs).length) rest
  | idx, _ :: rest => refWalk matcher idx rest

/-- The fixed score mapping of the specification: Full match 1.0, Partial
match 0.5, No match 0.0, Error 0.0, and 0 for any unrecognized level. -/
def specScoreOfLevel (level : String) : ℚ :=
  if level = "Full match" then 1
  else if level = "Partial match" then 1/2
  else 0

/-- Specification category scores: the arithmetic mean of each category's
item scores, the category omitted when it has no counted items. -/
def specCatScores (walk : List (String × List String)) : List (String × ℚ) :=
  walk.filterMap fun p =>
    if p.2.isEmpty then none
    else some (p.1, (p.2.map specScoreOfLevel).sum / (p.2.length : ℚ))

/-- All counted levels, system-wide. -/
def flatWalk (walk : List (String × List String)) : List String :=
  (walk.map Prod.snd).flatten

/-- Specification overall score: the arithmetic mean over all counted
items, 0 when none. -/
def specOverall (walk : List (String × List String)) : ℚ :=
  if (flatWalk walk).isEmpty then 0
  else ((flatWalk walk).map specScoreOfLevel).sum / ((flatWalk walk).length : ℚ)

/-- `MATCH_SCORES.get` and the specification mapping agree on level
strings. -/
lemma levelScore_jstr (s : String) : levelScore (JVal.jstr s) = specScoreOfLevel s := rfl

/-- The matcher either reports a failure, or returns a dict whose
(defaulted) `match_level` is a string. -/
def matcherShaped (matcher : Matcher) : Prop :=
  ∀ k it, (∃ d, matcher k it = Except.error d)
    ∨ (∃ kvs s, matcher k it = Except.ok (JVal.jobj kvs)
        ∧ (jget kvs "match_level").getD (JVal.jstr "No match") = JVal.jstr s)

/-- Dict-shaped categories carry list-shaped subcategories of hashable
items (other categories are skipped by the endpoint). -/
def wellShaped (cats : List (String × JVal)) : Prop :=
  ∀ p ∈ cats, ∀ subs, p.2 = JVal.jobj subs →
    ∀ q ∈ subs, ∃ items, q.2 = JVal.jarr items ∧ ∀ it ∈ items, it.hashable = true

end MetaHire

namespace MetaHire

/-! ## The scoring loops, summarised -/

lemma okLevels_append (matcher : Matcher) (xs ys : List JVal) :
    ∀ idx, okLevels matcher idx (xs ++ ys) =
      okLevels matcher idx xs ++ okLevels matcher (idx + xs.length) ys := by
  induction xs with
  | nil => intro idx; simp [okLevels]
  | cons it rest ih =>
    intro idx
    have harr : idx + 1 + rest.length = idx + (it :: rest).length := by
      rw [List.length_cons]
      omega
    rw [List.cons_append, okLevels, okLevels]
    cases matcher idx it with
    | ok md => rw [ih (idx + 1), List.cons_append, harr]
    | error d => rw [ih (idx + 1), harr]

/-- The item loop: it never fails under the shape hypotheses, counts one
call per item, and accumulates the number of successful calls and the sum
of their level scores into both the category and total counters. -/
lemma processItems_spec (matcher : Matcher) (H : matcherShaped matcher)
    (items : List JVal) (hhash : ∀ it ∈ items, it.hashable = true) :
    ∀ calls tree cs ci ts ti, ∃ tree2,
      processItems matcher items calls tree cs ci ts ti =
        Except.ok (calls + items.length, tree2,
          cs + ((okLevels matcher calls items).map specScoreOfLevel).sum,
          ci + (okLevels matcher calls items).length,
          ts + ((okLevels matcher calls items).map specScoreOfLevel).sum,
          ti + (okLevels matcher calls items).length) := by
  induction items with
  | nil =>
    intro calls tree cs ci ts ti
    exact ⟨tree, by simp [processItems, okLevels]⟩
  | cons it rest ih =>
    intro calls tree cs ci ts ti
    have hit : it.hashable = true := hhash it (List.mem_cons_self it rest)
    have hrest : ∀ x ∈ rest, x.hashable = true :=
      fun x hx => hhash x (List.mem_cons_of_mem it hx)
    rcases H calls it with ⟨d, hd⟩ | ⟨kvs, s, hok, hlev⟩
    · obtain ⟨tree2, ht⟩ := ih hrest (calls + 1) (itemInsert tree it (errOutcome d)) cs ci ts ti
      refine ⟨tree2, ?_⟩
      rw [processItems, hd]
      simp only [hit, if_true]
      rw [ht]
      simp only [okLevels, hd, List.length_cons, Prod.mk.injEq, Except.ok.injEq]
      repeat' apply And.intro
      all_goals first | trivial | omega | ring
    · obtain ⟨tree2, ht⟩ := ih hrest (calls + 1) (itemInsert tree it (JVal.jobj kvs))
        (cs + levelScore (JVal.jstr s)) (ci + 1)
        (ts + levelScore (JVal.jstr s)) (ti + 1)
      refine ⟨tree2, ?_⟩
      rw [processItems, hok]
      simp only [hit, if_true, hlev]
      rw [ht]
      have hlv : levelOfMd (JVal.jobj kvs) = s := by
        simp [levelOfMd, hlev]
      simp only [okLevels, hok, hlv, List.map_cons, List.sum_cons, List.length_cons,
        levelScore_jstr, Prod.mk.injEq, Except.ok.injEq]
      repeat' apply And.intro
      all_goals first | trivial | omega | ring

end MetaHire

namespace MetaHire

/-- Assigning a fresh string key appends the pair. -/
lemma dictInsert_fresh {β : Type} (l : List (String × β)) (k : String) (v : β)
    (h : k ∉ l.map Prod.fst) : dictInsert l k v = l ++ [(k, v)] := by
  induction l with
  | nil => rfl
  | cons p rest ih =>
    rw [List.map_cons] at h
    have hk : p.1 ≠ k := fun he => h (he ▸ List.mem_cons_self p.1 _)
    obtain ⟨k2, v2⟩ := p
    rw [dictInsert]
    rw [if_neg hk]
    rw [List.cons_append, ih (fun hm => h (List.mem_cons_of_mem _ hm))]

/-- The subcategory loop under the shape hypotheses: no failure, the
counters advance by the category's items. -/
lemma processSubcats_spec (matcher : Matcher) (H : matcherShaped matcher)
    (subs : List (String × JVal))
    (hsh : ∀ q ∈ subs, ∃ items, q.2 = JVal.jarr items ∧ ∀ it ∈ items, it.hashable = true) :
    ∀ calls catTree cs ci ts ti, ∃ catTree2,
      processSubcats matcher subs calls catTree cs ci ts ti =
        Except.ok (calls + (itemsOfSubs subs).length, catTree2,
          cs + ((okLevels matcher calls (itemsOfSubs subs)).map specScoreOfLevel).sum,
          ci + (okLevels matcher calls (itemsOfSubs subs)).length,
          ts + ((okLevels matcher calls (itemsOfSubs subs)).map specScoreOfLevel).sum,
          ti + (okLevels matcher calls (itemsOfSubs subs)).length) := by
  induction subs with
  | nil =>
    intro calls catTree cs ci ts ti
    exact ⟨catTree, by simp [processSubcats, itemsOfSubs, okLevels]⟩
  | cons q rest ih =>
    intro calls catTree cs ci ts ti
    obtain ⟨items, hq, hhash⟩ := hsh q (List.mem_cons_self q rest)
    have hshr : ∀ q2 ∈ rest, ∃ items, q2.2 = JVal.jarr items ∧ ∀ it ∈ items, it.hashable = true :=
      fun q2 hq2 => hsh q2 (List.mem_cons_of_mem q hq2)
    obtain ⟨sub, v⟩ := q
    simp only at hq
    subst hq
    obtain ⟨tree2, hpi⟩ := processItems_spec matcher H items hhash calls [] cs ci ts ti
    obtain ⟨catTree2, hps⟩ := ih hshr (calls + items.length) (dictInsert catTree sub tree2)
      (cs + ((okLevels matcher calls items).map specScoreOfLevel).sum)
      (ci + (okLevels matcher calls items).length)
      (ts + ((okLevels matcher calls items).map specScoreOfLevel).sum)
      (ti + (okLevels matcher calls items).length)
    refine ⟨catTree2, ?_⟩
    rw [processSubcats, hpi]
    simp only [hps, itemsOfSubs, okLevels_append, List.length_append,
      List.map_append, List.sum_append, Prod.mk.injEq, Except.ok.injEq]
    repeat' apply And.intro
    all_goals first | trivial | omega | ring

end MetaHire

namespace MetaHire

/-- The category loop under the shape hypotheses: no failure; category
scores append the specification means of counted categories; totals
accumulate over all counted items. -/
lemma processCats_spec (matcher : Matcher) (H : matcherShaped matcher) :
    ∀ cats : List (String × JVal), wellShaped cats → (cats.map Prod.fst).Nodup →
    ∀ calls results catScores ts ti,
      (∀ p ∈ cats, p.1 ∉ catScores.map Prod.fst) →
      ∃ results2,
        processCats matcher cats calls results catScores ts ti =
          Except.ok (results2,
            catScores ++ specCatScores (refWalk matcher calls cats),
            ts + ((flatWalk (refWalk matcher calls cats)).map specScoreOfLevel).sum,
            ti + (flatWalk (refWalk matcher calls cats)).length) := by
  intro cats
  induction cats with
  | nil =>
    intro _ _ calls results catScores ts ti _
    exact ⟨results, by simp [processCats, refWalk, specCatScores, flatWalk]⟩
  | cons p rest ih =>
    intro hws hnodup calls results catScores ts ti hfresh
    obtain ⟨c, v⟩ := p
    have hwsr : wellShaped rest := fun q hq => hws q (List.mem_cons_of_mem _ hq)
    have hnodupr : (rest.map Prod.fst).Nodup := (List.nodup_cons.mp (by simpa using hnodup)).2
    have hcnotin : c ∉ rest.map Prod.fst := (List.nodup_cons.mp (by simpa using hnodup)).1
    cases v with
    | jobj subs =>
      have hshape : ∀ q ∈ subs, ∃ items, q.2 = JVal.jarr items
          ∧ ∀ it ∈ items, it.hashable = true :=
        hws (c, JVal.jobj subs) (List.mem_cons_self _ _) subs rfl
      obtain ⟨catTree2, hps⟩ := processSubcats_spec matcher H subs hshape calls [] 0 0 ts ti
      by_cases hlen : (okLevels matcher calls (itemsOfSubs subs)).length = 0
      · have hnil : okLevels matcher calls (itemsOfSubs subs) = [] :=
          List.length_eq_zero.mp hlen
        obtain ⟨results2, hrec⟩ := ih hwsr hnodupr (calls + (itemsOfSubs subs).length)
          (dictInsert results c catTree2) catScores ts ti
          (fun q hq => hfresh q (List.mem_cons_of_mem _ hq))
        refine ⟨results2, ?_⟩
        rw [processCats, hps]
        simp only [hnil, List.length_nil, Nat.add_zero, Nat.lt_irrefl, if_false,
          List.map_nil, List.sum_nil, add_zero, Nat.zero_add, zero_add]
        rw [hrec]
        simp only [refWalk, hnil, specCatScores, flatWalk, List.filterMap_cons,
          List.isEmpty_nil, if_pos rfl, List.map_cons, List.flatten_cons,
          List.nil_append, Except.ok.injEq, Prod.mk.injEq]
        repeat' apply And.intro
        all_goals first | trivial | rfl
      · have hpos : 0 < (okLevels matcher calls (itemsOfSubs subs)).length := by omega
        have hcfresh : c ∉ catScores.map Prod.fst :=
          hfresh (c, JVal.jobj subs) (List.mem_cons_self _ _)
        obtain ⟨results2, hrec⟩ := ih hwsr hnodupr (calls + (itemsOfSubs subs).length)
          (dictInsert results c catTree2)
          (catScores ++ [(c, ((okLevels matcher calls (itemsOfSubs subs)).map
              specScoreOfLevel).sum / ((okLevels matcher calls (itemsOfSubs subs)).length : ℚ))])
          (ts + ((okLevels matcher calls (itemsOfSubs subs)).map specScoreOfLevel).sum)
          (ti + (okLevels matcher calls (itemsOfSubs subs)).length)
          (by
            intro q hq
            rw [List.map_append, List.mem_append]
            rintro (hin | hin)
            · exact hfresh q (List.mem_cons_of_mem _ hq) hin
            · simp only [List.map_cons, List.map_nil, List.mem_singleton] at hin
              exact hcnotin (hin ▸ List.mem_map_of_mem Prod.fst hq))
        refine ⟨results2, ?_⟩
        rw [processCats, hps]
        simp only [Nat.zero_add, zero_add, hpos, if_pos hpos, if_true]
        rw [dictInsert_fresh catScores c _ hcfresh, hrec]
        have hne : (okLevels matcher calls (itemsOfSubs subs)).isEmpty = false := by
          cases hok : okLevels matcher calls (itemsOfSubs subs) with
          | nil => rw [hok] at hlen; simp at hlen
          | cons a l => simp
        simp only [refWalk, specCatScores, flatWalk, List.filterMap_cons, hne,
          Bool.false_eq_true, if_false, List.map_cons, List.flatten_cons,
          List.map_append, List.sum_append, List.length_append,
          List.append_assoc, List.singleton_append, Except.ok.injEq, Prod.mk.injEq]
        repeat' apply And.intro
        all_goals first | trivial | omega | ring
    | jstr s =>
      exact ih hwsr hnodupr calls results catScores ts ti
        (fun q hq => hfresh q (List.mem_cons_of_mem _ hq))
    | jnum q0 =>
      exact ih hwsr hnodupr calls results catScores ts ti
        (fun q hq => hfresh q (List.mem_cons_of_mem _ hq))
    | jbool b =>
      exact ih hwsr hnodupr calls results catScores ts ti
        (fun q hq => hfresh q (List.mem_cons_of_mem _ hq))
    | jnull =>
      exact ih hwsr hnodupr calls results catScores ts ti
        (fun q hq => hfresh q (List.mem_cons_of_mem _ hq))
    | jarr xs =>
      exact ih hwsr hnodupr calls results catScores ts ti
        (fun q hq => hfresh q (List.mem_cons_of_mem _ hq))

end MetaHire

namespace MetaHire

/-- The rounding of the overall-score division into the specification
form. -/
lemma overall_div_eq (w : List (String × List String)) :
    (if 0 < (flatWalk w).length
      then ((flatWalk w).map specScoreOfLevel).sum / ((flatWalk w).length : ℚ)
      else 0) = specOverall w := by
  rw [specOverall]
  by_cases h : flatWalk w = []
  · simp [h]
  · have hlen : 0 < (flatWalk w).length := List.length_pos.mpr h
    rw [if_pos hlen, if_neg (by simpa [List.isEmpty_iff] using h)]

/-- The endpoint on a shaped request: success, with the category scores
and overall score of the specification reference computation over the
counted (successfully matched) items. -/
lemma unified_match_spec (matcher : Matcher) (cats : List (String × JVal)) (resume : JVal)
    (H : matcherShaped matcher) (hws : wellShaped cats)
    (hnodup : (cats.map Prod.fst).Nodup) (hcats : cats ≠ [])
    (hres : resume.truthy = true) :
    ∃ results2, unified_match matcher (JVal.jobj cats) resume =
      MatchResponse.success results2
        (specCatScores (refWalk matcher 0 cats))
        (specOverall (refWalk matcher 0 cats)) := by
  obtain ⟨results2, hpc⟩ := processCats_spec matcher H cats hws hnodup 0 [] [] 0 0 (by simp)
  refine ⟨results2, ?_⟩
  have htr : (JVal.jobj cats).truthy = true := by
    cases cats with
    | nil => exact absurd rfl hcats
    | cons p rest => simp [JVal.truthy]
  rw [unified_match, if_neg (by simp [htr, hres])]
  rw [hpc]
  simp only [List.nil_append, Nat.zero_add, zero_add]
  rw [overall_div_eq]

/-! ## Fixtures for the matching theorems -/

/-- A full-match outcome, as returned by the external matcher. -/
def fullMd : JVal :=
  JVal.jobj [("match_level", JVal.jstr "Full match"),
    ("reason", JVal.jstr "covers it"), ("evidence", JVal.jstr "resume line")]

/-- A partial-match outcome. -/
def partialMd : JVal :=
  JVal.jobj [("match_level", JVal.jstr "Partial match"),
    ("reason", JVal.jstr "somewhat"), ("evidence", JVal.jstr "")]

/-- A no-match outcome. -/
def noMd : JVal :=
  JVal.jobj [("match_level", JVal.jstr "No match"),
    ("reason", JVal.jstr "absent"), ("evidence", JVal.jstr "")]

/-- An outcome with an unrecognized level string. -/
def weirdMd : JVal :=
  JVal.jobj [("match_level", JVal.jstr "Sorta match"),
    ("reason", JVal.jstr "r"), ("evidence", JVal.jstr "e")]

/-- A truthy resume value. -/
def resumeFix : JVal := JVal.jobj [("skills", JVal.jstr "python")]

/-- A matcher failing on exactly the first call, succeeding after. -/
def failFirstMatcher : Matcher :=
  fun k _ => if k = 0 then Except.error "boom" else Except.ok fullMd

/-- One category, one subcategory, two distinct items. -/
def catsTwoItems : List (String × JVal) :=
  [("C", JVal.jobj [("S", JVal.jarr [JVal.jstr "A", JVal.jstr "B"])])]

/-- The same, as the job-description value. -/
def jdTwoItems : JVal := JVal.jobj catsTwoItems

/-- A matcher answering full match then partial match. -/
def fullThenPartial : Matcher :=
  fun k _ => if k = 0 then Except.ok fullMd else Except.ok partialMd

/-- One category, one subcategory, the same item twice. -/
def catsDupItems : List (String × JVal) :=
  [("C", JVal.jobj [("S", JVal.jarr [JVal.jstr "A", JVal.jstr "A"])])]

/-- The same, as the job-description value. -/
def jdDupItems : JVal := JVal.jobj catsDupItems

/-- The two-category request of the specification test: two categories of
two items each. -/
def catsSpecTest : List (String × JVal) :=
  [("C1", JVal.jobj [("S1", JVal.jarr [JVal.jstr "A", JVal.jstr "B"])]),
   ("C2", JVal.jobj [("S2", JVal.jarr [JVal.jstr "P", JVal.jstr "Q"])])]

/-- A matcher answering full match except no match on the fourth call. -/
def threeFullOneNo : Matcher :=
  fun k _ => if k = 3 then Except.ok noMd else Except.ok fullMd

end MetaHire

namespace MetaHire

/-- C6: on every shaped request whose matcher calls all succeed with a
dict outcome carrying a string level, the endpoint returns success with
category scores and overall score equal to the reference definition:
items scored 1, 0.5 or 0 by level (0 for unrecognized levels), category
score the arithmetic mean of the category's item scores, omitted when no
items were counted, overall the mean over all counted items with 0 for
none; concretely, an unrecognized level string is preserved verbatim in
the results tree while scoring 0. -/
theorem C6_score_computation_equals_reference
    (matcher : Matcher) (cats : List (String × JVal)) (resume : JVal)
    (H : ∀ k it, ∃ kvs s, matcher k it = Except.ok (JVal.jobj kvs)
        ∧ (jget kvs "match_level").getD (JVal.jstr "No match") = JVal.jstr s)
    (hws : wellShaped cats) (hnodup : (cats.map Prod.fst).Nodup)
    (hcats : cats ≠ []) (hres : resume.truthy = true) :
    (∃ results2, unified_match matcher (JVal.jobj cats) resume =
        MatchResponse.success results2
          (specCatScores (refWalk matcher 0 cats))
          (specOverall (refWalk matcher 0 cats)))
    ∧ unified_match (fun _ _ => Except.ok weirdMd)
        (JVal.jobj [("C", JVal.jobj [("S", JVal.jarr [JVal.jstr "A"])])]) resumeFix =
      MatchResponse.success [("C", [("S", [(JVal.jstr "A", weirdMd)])])] [("C", 0)] 0 := by
  refine ⟨unified_match_spec matcher cats resume (fun k it => Or.inr (H k it))
    hws hnodup hcats hres, ?_⟩
  simp [unified_match, processCats, processSubcats, processItems, JVal.truthy, resumeFix,
    JVal.hashable, jget, itemInsert, dictInsert, JVal.beq, weirdMd, levelScore]

/-- C6 witness: the reference equality at the specification test scenario
(two categories of two items, three full matches and one no-match) with
the reference values evaluated: category scores 1 and 0.5, overall
0.75. -/
theorem C6_witness_spec_test_scenario :
    (∃ results2, unified_match threeFullOneNo (JVal.jobj catsSpecTest) resumeFix =
        MatchResponse.success results2
          (specCatScores (refWalk threeFullOneNo 0 catsSpecTest))
          (specOverall (refWalk threeFullOneNo 0 catsSpecTest)))
    ∧ specCatScores (refWalk threeFullOneNo 0 catsSpecTest) = [("C1", 1), ("C2", 1/2)]
    ∧ specOverall (refWalk threeFullOneNo 0 catsSpecTest) = 3/4 := by
  refine ⟨(C6_score_computation_equals_reference threeFullOneNo catsSpecTest resumeFix
    ?_ ?_ ?_ ?_ ?_).1, ?_, ?_⟩
  · intro k it
    by_cases h : k = 3
    · refine ⟨[("match_level", JVal.jstr "No match"), ("reason", JVal.jstr "absent"),
        ("evidence", JVal.jstr "")], "No match", ?_, rfl⟩
      simp [threeFullOneNo, h, noMd]
    · refine ⟨[("match_level", JVal.jstr "Full match"), ("reason", JVal.jstr "covers it"),
        ("evidence", JVal.jstr "resume line")], "Full match", ?_, rfl⟩
      simp [threeFullOneNo, h, fullMd]
  · intro p hp subs hsub q hq
    simp only [catsSpecTest, List.mem_cons, List.not_mem_nil, or_false] at hp
    rcases hp with rfl | rfl <;> simp only at hsub <;>
      obtain rfl := (JVal.jobj.injEq .. ).mp hsub.symm <;>
      simp only [List.mem_singleton] at hq <;> subst hq
    · exact ⟨[JVal.jstr "A", JVal.jstr "B"], rfl, by decide⟩
    · exact ⟨[JVal.jstr "P", JVal.jstr "Q"], rfl, by decide⟩
  · decide
  · simp [catsSpecTest]
  · rfl
  · simp [specCatScores, refWalk, catsSpecTest, itemsOfSubs, okLevels, threeFullOneNo,
      levelOfMd, jget, fullMd, noMd, specScoreOfLevel]
    try norm_num
  · simp [specOverall, flatWalk, specCatScores, refWalk, catsSpecTest, itemsOfSubs,
      okLevels, threeFullOneNo, levelOfMd, jget, fullMd, noMd, specScoreOfLevel]
    try norm_num

/-- C7: the claim that a matcher-failed item "contributes 0 to its
category mean and to the overall mean" is false on the code: the errored
item is excluded from the denominators entirely.  With one errored and one
full-match item in a category, counting the errored item as 0 would give a
mean of 0.5, but the endpoint returns 1. -/
theorem C7_counterexample_error_excluded_from_mean :
    unified_match failFirstMatcher jdTwoItems resumeFix =
      MatchResponse.success
        [("C", [("S", [(JVal.jstr "A", errOutcome "boom"), (JVal.jstr "B", fullMd)])])]
        [("C", 1)] 1
    ∧ (specScoreOfLevel "Error" + specScoreOfLevel "Full match") / 2 = 1/2
    ∧ (1 : ℚ) ≠ 1/2 := by
  refine ⟨?_, ?_, by norm_num⟩
  case refine_2 =>
    have h1 : specScoreOfLevel "Error" = 0 := rfl
    have h2 : specScoreOfLevel "Full match" = 1 := rfl
    rw [h1, h2]
    norm_num
  simp [unified_match, processCats, processSubcats, processItems, JVal.truthy, resumeFix,
    JVal.hashable, jget, itemInsert, dictInsert, JVal.beq, jdTwoItems, catsTwoItems,
    failFirstMatcher, fullMd, errOutcome, levelScore]

/-- C7 (amended): a matcher failure on a single item does not abort: the
request still returns success, the item's tree outcome is the synthesized
Error level carrying the failure detail as reason, the remaining items are
processed — but the errored item is excluded from both the numerator and
the denominator of its category mean and of the overall mean (it is not
counted as a zero score). -/
theorem C7_amended_error_item_skipped_in_scores
    (matcher : Matcher) (cats : List (String × JVal)) (resume : JVal)
    (H : matcherShaped matcher) (hws : wellShaped cats)
    (hnodup : (cats.map Prod.fst).Nodup) (hcats : cats ≠ [])
    (hres : resume.truthy = true) :
    (∃ results2, unified_match matcher (JVal.jobj cats) resume =
        MatchResponse.success results2
          (specCatScores (refWalk matcher 0 cats))
          (specOverall (refWalk matcher 0 cats)))
    ∧ unified_match failFirstMatcher jdTwoItems resumeFix =
        MatchResponse.success
          [("C", [("S", [(JVal.jstr "A", errOutcome "boom"), (JVal.jstr "B", fullMd)])])]
          [("C", 1)] 1 := by
  refine ⟨unified_match_spec matcher cats resume H hws hnodup hcats hres, ?_⟩
  simp [unified_match, processCats, processSubcats, processItems, JVal.truthy, resumeFix,
    JVal.hashable, jget, itemInsert, dictInsert, JVal.beq, jdTwoItems, catsTwoItems,
    failFirstMatcher, fullMd, errOutcome, levelScore]

/-- C7 witness: the amended statement at the fail-first scenario; the
reference walk skips the failed first call, so the category keeps only the
full-match item. -/
theorem C7_witness_fail_first :
    (∃ results2, unified_match failFirstMatcher (JVal.jobj catsTwoItems) resumeFix =
        MatchResponse.success results2
          (specCatScores (refWalk failFirstMatcher 0 catsTwoItems))
          (specOverall (refWalk failFirstMatcher 0 catsTwoItems)))
    ∧ unified_match failFirstMatcher jdTwoItems resumeFix =
        MatchResponse.success
          [("C", [("S", [(JVal.jstr "A", errOutcome "boom"), (JVal.jstr "B", fullMd)])])]
          [("C", 1)] 1 :=
  C7_amended_error_item_skipped_in_scores failFirstMatcher catsTwoItems resumeFix
    (by
      intro k it
      by_cases h : k = 0
      · exact Or.inl ⟨"boom", by simp [failFirstMatcher, h]⟩
      · exact Or.inr ⟨[("match_level", JVal.jstr "Full match"),
          ("reason", JVal.jstr "covers it"), ("evidence", JVal.jstr "resume line")],
          "Full match", by simp [failFirstMatcher, h, fullMd], rfl⟩)
    (by
      intro p hp subs hsub q hq
      simp only [catsTwoItems, List.mem_singleton] at hp
      subst hp
      simp only at hsub
      obtain rfl := (JVal.jobj.injEq .. ).mp hsub.symm
      simp only [List.mem_singleton] at hq
      subst hq
      exact ⟨[JVal.jstr "A", JVal.jstr "B"], rfl, by decide⟩)
    (by decide)
    (by simp [catsTwoItems])
    rfl

end MetaHire

namespace MetaHire

/-- Skipping a non-dict category in the middle of the walk leaves the
whole computation unchanged. -/
lemma processCats_skip_middle (matcher : Matcher) (c : String) (v : JVal)
    (hv : ∀ subs, v ≠ JVal.jobj subs) (post : List (String × JVal)) :
    ∀ (pre : List (String × JVal)) calls results catScores ts ti,
      processCats matcher (pre ++ (c, v) :: post) calls results catScores ts ti =
        processCats matcher (pre ++ post) calls results catScores ts ti := by
  intro pre
  induction pre with
  | nil =>
    intro calls results catScores ts ti
    cases v with
    | jobj subs => exact absurd rfl (hv subs)
    | jstr s => rfl
    | jnum q => rfl
    | jbool b => rfl
    | jnull => rfl
    | jarr xs => rfl
  | cons p pre ih =>
    intro calls results catScores ts ti
    obtain ⟨c2, v2⟩ := p
    cases v2 with
    | jobj subs =>
      rw [List.cons_append, List.cons_append, processCats, processCats]
      cases processSubcats matcher subs calls [] 0 0 ts ti with
      | error e => rfl
      | ok t =>
        obtain ⟨a1, a2, a3, a4, a5, a6⟩ := t
        exact ih a1 (dictInsert results c2 a2) _ a5 a6
    | jstr s => exact ih calls results catScores ts ti
    | jnum q => exact ih calls results catScores ts ti
    | jbool b => exact ih calls results catScores ts ti
    | jnull => exact ih calls results catScores ts ti
    | jarr xs => exact ih calls results catScores ts ti

/-- C8: in the structural validation, a category whose subcategories
value is not a dict is merely skipped — the endpoint result is the same as
if the category were absent — while a subcategory whose items value is not
a list aborts the whole request with the invalid-items error envelope
(HTTP 500), even when further categories follow. -/
theorem C8_category_skip_vs_subcategory_abort :
    (∀ (matcher : Matcher) (resume : JVal) (pre post : List (String × JVal))
        (c : String) (v : JVal),
      (∀ subs, v ≠ JVal.jobj subs) → pre ++ post ≠ [] → resume.truthy = true →
      unified_match matcher (JVal.jobj (pre ++ (c, v) :: post)) resume =
        unified_match matcher (JVal.jobj (pre ++ post)) resume)
    ∧ (∀ (matcher : Matcher) (resume : JVal) (c s : String) (w : JVal)
        (subtail cats : List (String × JVal)),
      (∀ xs, w ≠ JVal.jarr xs) → resume.truthy = true →
      unified_match matcher (JVal.jobj ((c, JVal.jobj ((s, w) :: subtail)) :: cats)) resume =
        MatchResponse.httpError (MatchError.invalidItems s))
    ∧ (MatchError.invalidItems "S").status = 500 := by
  refine ⟨?_, ?_, rfl⟩
  · intro matcher resume pre post c v hv hne hres
    have h1 : (JVal.jobj (pre ++ (c, v) :: post)).truthy = true := by
      simp [JVal.truthy]
    have h2 : (JVal.jobj (pre ++ post)).truthy = true := by
      have hie : (pre ++ post).isEmpty = false := by
        cases h : pre ++ post with
        | nil => exact absurd h hne
        | cons a l => rfl
      simp [JVal.truthy, hie]
    rw [unified_match, unified_match, if_neg (by simp [h1, hres]),
      if_neg (by simp [h2, hres])]
    rw [processCats_skip_middle matcher c v hv post pre 0 [] [] 0 0]
  · intro matcher resume c s w subtail cats hw hres
    have hps : processSubcats matcher ((s, w) :: subtail) 0 [] 0 0 0 0 =
        Except.error (MatchError.invalidItems s) := by
      cases w with
      | jarr xs => exact absurd rfl (hw xs)
      | jstr a => rfl
      | jnum a => rfl
      | jbool a => rfl
      | jnull => rfl
      | jobj a => rfl
    have hjd : (JVal.jobj ((c, JVal.jobj ((s, w) :: subtail)) :: cats)).truthy = true := by
      simp [JVal.truthy]
    rw [unified_match, if_neg (by simp [hjd, hres])]
    rw [processCats, hps]

/-- C8 witness: the asymmetry at concrete requests: a string-valued
category is dropped without affecting the other category, while a
string-valued subcategory items list turns the whole request into the
invalid-items error. -/
theorem C8_witness_concrete_asymmetry :
    unified_match fullThenPartial
        (JVal.jobj (([] : List (String × JVal)) ++ ("Bad", JVal.jstr "oops") :: catsTwoItems))
        resumeFix =
      unified_match fullThenPartial (JVal.jobj (([] : List (String × JVal)) ++ catsTwoItems))
        resumeFix
    ∧ unified_match fullThenPartial
        (JVal.jobj (("C", JVal.jobj (("S", JVal.jstr "oops") :: [])) :: catsTwoItems))
        resumeFix =
      MatchResponse.httpError (MatchError.invalidItems "S") := by
  constructor
  · exact C8_category_skip_vs_subcategory_abort.1 fullThenPartial resumeFix [] catsTwoItems
      "Bad" (JVal.jstr "oops") (fun subs h => by cases h) (by simp [catsTwoItems]) rfl
  · exact C8_category_skip_vs_subcategory_abort.2.1 fullThenPartial resumeFix "C" "S"
      (JVal.jstr "oops") [] catsTwoItems (fun xs h => by cases h) rfl

/-- The results tree stores one entry per distinct key: inserting an
already-present key keeps the length, a fresh key appends. -/
lemma itemInsert_length {β : Type} : ∀ (tree : List (JVal × β)) (k : JVal) (v : β),
    (itemInsert tree k v).length =
      if tree.any (fun p => JVal.beq p.1 k) then tree.length else tree.length + 1 := by
  intro tree k v
  induction tree with
  | nil => simp [itemInsert]
  | cons p rest ih =>
    obtain ⟨k2, v2⟩ := p
    rw [itemInsert]
    by_cases h : JVal.beq k2 k = true
    · rw [if_pos h]
      simp [List.any_cons, h]
    · have hf : JVal.beq k2 k = false := eq_false_of_ne_true h
      rw [if_neg h, List.length_cons, ih]
      simp only [List.any_cons, hf, Bool.false_or]
      cases h2 : rest.any (fun p => JVal.beq p.1 k) with
      | false => simp [h2]
      | true => simp [h2]

/-- C10: the per-subcategory results tree is keyed by item text, so a
duplicated item keeps a single entry whose outcome is the one of the last
occurrence, while the score denominators count every occurrence: with the
item "A" listed twice, matched Full then Partial, the tree has one entry
holding the Partial outcome, the category and overall means are
(1 + 0.5) / 2 = 0.75 over two counted occurrences, and the tree is
strictly smaller than the denominator. -/
theorem C10_duplicate_items_collapse_in_tree :
    (∀ (tree : List (JVal × JVal)) (k : JVal) (v : JVal),
      (itemInsert tree k v).length =
        if tree.any (fun p => JVal.beq p.1 k) then tree.length else tree.length + 1)
    ∧ unified_match fullThenPartial jdDupItems resumeFix =
        MatchResponse.success [("C", [("S", [(JVal.jstr "A", partialMd)])])]
          [("C", 3/4)] (3/4)
    ∧ (flatWalk (refWalk fullThenPartial 0 catsDupItems)).length = 2
    ∧ ([(JVal.jstr "A", partialMd)] : List (JVal × JVal)).length = 1
    ∧ (1 : ℕ) < 2 := by
  refine ⟨fun tree k v => itemInsert_length tree k v, ?_, ?_, rfl, by omega⟩
  · simp [unified_match, processCats, processSubcats, processItems, JVal.truthy, resumeFix,
      JVal.hashable, jget, itemInsert, dictInsert, JVal.beq, jdDupItems, catsDupItems,
      fullThenPartial, fullMd, partialMd, levelScore]
    norm_num
  · simp [flatWalk, refWalk, catsDupItems, itemsOfSubs, okLevels, fullThenPartial,
      levelOfMd, jget, fullMd, partialMd]

end MetaHire

namespace MetaHire

/-! ## Strict JSON parsing (`json.loads`) and the two coercion paths

The parser below models the strict mode of `json.loads` on the JSON
grammar: objects, arrays, double-quoted strings with escapes, numbers,
booleans and null, with the four JSON whitespace characters.  The
non-standard `NaN`/`Infinity` float literals and `\u` surrogate pairing
are outside the model; no claim touches them.  Recursion is by fuel; the
top entry supplies fuel larger than the input length, and every recursive
call decreases the fuel. -/

/-- The double-quote character. -/
def quoteChar : Char := Char.ofNat 34

/-- The single-quote character. -/
def squoteChar : Char := Char.ofNat 39

/-- The opening-brace character. -/
def lbraceChar : Char := Char.ofNat 123

/-- The closing-brace character. -/
def rbraceChar : Char := Char.ofNat 125

/-- The opening-bracket character. -/
def lbrackChar : Char := Char.ofNat 91

/-- The closing-bracket character. -/
def rbrackChar : Char := Char.ofNat 93

/-- The backslash character. -/
def bslashChar : Char := Char.ofNat 92

/-- JSON whitespace (`json.decoder` skips exactly space, tab, newline and
carriage return). -/
def jsonWs (c : Char) : Bool :=
  c == ' ' || c == Char.ofNat 9 || c == Char.ofNat 10 || c == Char.ofNat 13

/-- Value of a hexadecimal digit. -/
def hexVal (c : Char) : Option ℕ :=
  if c.isDigit then some (c.toNat - 48)
  else if 97 ≤ c.toNat ∧ c.toNat ≤ 102 then some (c.toNat - 87)
  else if 65 ≤ c.toNat ∧ c.toNat ≤ 70 then some (c.toNat - 55)
  else none

/-- Parse the remainder of a JSON string after the opening quote; strict
mode rejects raw control characters. -/
def parseJString : ℕ → List Char → Option (List Char × List Char)
  | 0, _ => none
  | _, [] => none
  | fuel+1, c :: rest =>
    if c == quoteChar then some ([], rest)
    else if c == bslashChar then
      match rest with
      | [] => none
      | e :: rest2 =>
        if e == quoteChar then
          (parseJString fuel rest2).map (fun p => (quoteChar :: p.1, p.2))
        else if e == bslashChar then
          (parseJString fuel rest2).map (fun p => (bslashChar :: p.1, p.2))
        else if e == Char.ofNat 47 then
          (parseJString fuel rest2).map (fun p => (Char.ofNat 47 :: p.1, p.2))
        else if e == 'b' then
          (parseJString fuel rest2).map (fun p => (Char.ofNat 8 :: p.1, p.2))
        else if e == 'f' then
          (parseJString fuel rest2).map (fun p => (Char.ofNat 12 :: p.1, p.2))
        else if e == 'n' then
          (parseJString fuel rest2).map (fun p => (Char.ofNat 10 :: p.1, p.2))
        else if e == 'r' then
          (parseJString fuel rest2).map (fun p => (Char.ofNat 13 :: p.1, p.2))
        else if e == 't' then
          (parseJString fuel rest2).map (fun p => (Char.ofNat 9 :: p.1, p.2))
        else if e == 'u' then
          match rest2 with
          | h1 :: h2 :: h3 :: h4 :: rest3 =>
            match hexVal h1, hexVal h2, hexVal h3, hexVal h4 with
            | some a, some b2, some c2, some d =>
              (parseJString fuel rest3).map
                (fun p => (Char.ofNat (4096 * a + 256 * b2 + 16 * c2 + d) :: p.1, p.2))
            | _, _, _, _ => none
          | _ => none
        else none
    else if c.toNat < 32 then none
    else (parseJString fuel rest).map (fun p => (c :: p.1, p.2))

/-- Parse a JSON number (integer part without leading zeros, optional
fraction and exponent) into an exact rational. -/
def parseNumber (l : List Char) : Option (ℚ × List Char) :=
  let neg := l.head? = some '-'
  let l1 := if neg then l.tail else l
  let ds := l1.takeWhile Char.isDigit
  let l2 := l1.dropWhile Char.isDigit
  if ds = [] then none
  else if ds.length > 1 ∧ ds.head? = some '0' then none
  else
    let intPart : ℚ := (charsToNat ds : ℚ)
    let withFrac : Option (ℚ × List Char) :=
      match l2 with
      | '.' :: l3 =>
        let fds := l3.takeWhile Char.isDigit
        if fds = [] then none
        else some (intPart + (charsToNat fds : ℚ) / (10 : ℚ) ^ fds.length,
          l3.dropWhile Char.isDigit)
      | _ => some (intPart, l2)
    match withFrac with
    | none => none
    | some (m, l4) =>
      let withExp : Option (ℚ × List Char) :=
        match l4 with
        | e :: l5 =>
          if e == 'e' || e == 'E' then
            let esign := l5.head? = some '-'
            let l6 := if l5.head? = some '-' ∨ l5.head? = some '+' then l5.tail else l5
            let eds := l6.takeWhile Char.isDigit
            if eds = [] then none
            else
              let ev : ℤ := if esign then -(charsToNat eds : ℤ) else (charsToNat eds : ℤ)
              some (m * (10 : ℚ) ^ ev, l6.dropWhile Char.isDigit)
          else some (m, l4)
        | [] => some (m, l4)
      match withExp with
      | none => none
      | some (m2, l7) => some (if neg then -m2 else m2, l7)

mutual

/-- Parse one JSON value after skipping leading whitespace. -/
def parseJVal : ℕ → List Char → Option (JVal × List Char)
  | 0, _ => none
  | fuel+1, l0 =>
    match l0.dropWhile jsonWs with
    | [] => none
    | c :: rest =>
      if c == quoteChar then
        (parseJString fuel rest).map (fun p => (JVal.jstr (String.mk p.1), p.2))
      else if c == lbraceChar then
        parseObjBody fuel rest
      else if c == lbrackChar then
        parseArrBody fuel rest
      else if ("true".toList).isPrefixOf (c :: rest) then
        some (JVal.jbool true, (c :: rest).drop 4)
      else if ("false".toList).isPrefixOf (c :: rest) then
        some (JVal.jbool false, (c :: rest).drop 5)
      else if ("null".toList).isPrefixOf (c :: rest) then
        some (JVal.jnull, (c :: rest).drop 4)
      else
        (parseNumber (c :: rest)).map (fun p => (JVal.jnum p.1, p.2))

/-- Parse an object body after the opening brace. -/
def parseObjBody : ℕ → List Char → Option (JVal × List Char)
  | 0, _ => none
  | fuel+1, l =>
    match l.dropWhile jsonWs with
    | [] => none
    | c :: rest =>
      if c == rbraceChar then some (JVal.jobj [], rest)
      else parseMembers fuel (c :: rest) []

/-- Parse the members of an object (duplicate keys collapse to the last
value, as in `json.loads`). -/
def parseMembers : ℕ → List Char → List (String × JVal) → Option (JVal × List Char)
  | 0, _, _ => none
  | fuel+1, l, acc =>
    match l.dropWhile jsonWs with
    | [] => none
    | c :: rest =>
      if c == quoteChar then
        match parseJString fuel rest with
        | none => none
        | some (key, rest2) =>
          match rest2.dropWhile jsonWs with
          | ':' :: rest3 =>
            match parseJVal fuel rest3 with
            | none => none
            | some (v, rest4) =>
              match rest4.dropWhile jsonWs with
              | ',' :: rest5 => parseMembers fuel rest5 (dictInsert acc (String.mk key) v)
              | c2 :: rest5 =>
                if c2 == rbraceChar then
                  some (JVal.jobj (dictInsert acc (String.mk key) v), rest5)
                else none
              | [] => none
          | _ => none
      else none

/-- Parse an array body after the opening bracket. -/
def parseArrBody : ℕ → List Char → Option (JVal × List Char)
  | 0, _ => none
  | fuel+1, l =>
    match l.dropWhile jsonWs with
    | [] => none
    | c :: rest =>
      if c == rbrackChar then some (JVal.jarr [], rest)
      else parseElems fuel (c :: rest) []

/-- Parse the elements of an array. -/
def parseElems : ℕ → List Char → List JVal → Option (JVal × List Char)
  | 0, _, _ => none
  | fuel+1, l, acc =>
    match parseJVal fuel l with
    | none => none
    | some (v, rest) =>
      match rest.dropWhile jsonWs with
      | ',' :: rest2 => parseElems fuel rest2 (acc ++ [v])
      | c2 :: rest2 =>
        if c2 == rbrackChar then some (JVal.jarr (acc ++ [v]), rest2)
        else none
      | [] => none

end

/-- `json.loads` on a character list: parse one value and demand only
whitespace after it. -/
def json_loadsL (l : List Char) : Option JVal :=
  match parseJVal (3 * (l.length + 1)) l with
  | none => none
  | some (v, rest) => if rest.dropWhile jsonWs = [] then some v else none

/-- `json.loads` on a string. -/
def json_loads (s : String) : Option JVal :=
  json_loadsL s.toList

/-- Python `str.strip()`: drop whitespace from both ends. -/
def stripChars (l : List Char) : List Char :=
  ((l.dropWhile Char.isWhitespace).reverse.dropWhile Char.isWhitespace).reverse

/-- The JSON coercion step of `generate_gpt_insights`
(`resume_parser.py`): strip, require the text to start with an opening
brace (`content.startswith` on the first character) and end with a closing
brace, then strict-parse; there is no quote normalization on this path.
Failures are HTTP-500 details, never escaped exceptions. -/
def generate_gpt_insights_coercion (content0 : String) : Except String JVal :=
  let content := stripChars content0.toList
  if ¬ (content.head? = some lbraceChar ∧ content.getLast? = some rbraceChar) then
    Except.error "Invalid JSON response from OpenAI."
  else
    match json_loadsL content with
    | some v => Except.ok v
    | none => Except.error "Error parsing JSON response from OpenAI."

/-- The JSON coercion step of `parse_natural_query` (`app.py`): strip,
replace every single-quote character by a double quote, then strict-parse;
there is no brace pre-check on this path.  Failures are HTTP-500
details. -/
def parse_natural_query_coercion (s0 : String) : Except String JVal :=
  let s2 := (stripChars s0.toList).map
    (fun c => if c == squoteChar then quoteChar else c)
  match json_loadsL s2 with
  | some v => Except.ok v
  | none => Except.error "Error parsing natural query."

/-- The literal `"  {"a": 'b'}  "` of the specification example: single
quotes around the value, surrounding whitespace. -/
def exSingleQuoted : String :=
  "  \x7b\"a\": " ++ String.singleton squoteChar ++ "b" ++ String.singleton squoteChar
    ++ "\x7d  "

end MetaHire

namespace MetaHire

/-- C9: there is no single coercer doing all four claimed steps.  The
path that enforces the brace pre-check (`generate_gpt_insights`) performs
no quote normalization, so the specification example with single quotes
fails there instead of coercing successfully; and the path that replaces
single quotes (`parse_natural_query`) performs no brace rejection, so a
bare non-braced JSON value is accepted there. -/
theorem C9_counterexample_no_single_pipeline :
    generate_gpt_insights_coercion exSingleQuoted =
      Except.error "Error parsing JSON response from OpenAI."
    ∧ parse_natural_query_coercion "true" = Except.ok (JVal.jbool true) :=
  ⟨rfl, rfl⟩

/-- C9 (amended): the two coercion paths split the claimed behavior.  The
resume-insights path trims, rejects any text not starting with an opening
and ending with a closing brace, and strict-parses without quote
normalization, so the single-quoted example fails there; the query path
trims, replaces single quotes with double quotes, and strict-parses
without any brace pre-check, so the single-quoted example coerces to
`{"a": "b"}` there and `"not json"` yields an error envelope on both
paths, no exception escaping either coercer. -/
theorem C9_amended_two_coercion_paths :
    (∀ s : String,
      ¬ ((stripChars s.toList).head? = some lbraceChar
        ∧ (stripChars s.toList).getLast? = some rbraceChar) →
      generate_gpt_insights_coercion s = Except.error "Invalid JSON response from OpenAI.")
    ∧ generate_gpt_insights_coercion exSingleQuoted =
        Except.error "Error parsing JSON response from OpenAI."
    ∧ generate_gpt_insights_coercion "  \x7b\"a\": \"b\"\x7d  " =
        Except.ok (JVal.jobj [("a", JVal.jstr "b")])
    ∧ parse_natural_query_coercion exSingleQuoted =
        Except.ok (JVal.jobj [("a", JVal.jstr "b")])
    ∧ parse_natural_query_coercion "not json" = Except.error "Error parsing natural query."
    ∧ generate_gpt_insights_coercion "not json" =
        Except.error "Invalid JSON response from OpenAI."
    ∧ parse_natural_query_coercion "true" = Except.ok (JVal.jbool true) := by
  refine ⟨?_, rfl, rfl, rfl, rfl, rfl, rfl⟩
  intro s h
  rw [generate_gpt_insights_coercion]
  simp only [if_pos h]

/-- C9 witness: the brace pre-check statement applied at the concrete
input `"not json"`. -/
theorem C9_witness_brace_precheck :
    generate_gpt_insights_coercion "not json" =
      Except.error "Invalid JSON response from OpenAI." :=
  C9_amended_two_coercion_paths.1 "not json" (by decide)

end MetaHire
